import Mathlib

/-! # JavaScript evolution examples: a shallow embedding

The repository is a corpus of stand-alone example files, one per ECMAScript
edition.  Each section below embeds the functions of one example file
(`src/javascript-evolution/<edition>/04_Code_Examples.js`) as Lean definitions
and states what they compute.

Conventions of the embedding

* A JavaScript string is the list of its UTF-16 code units (`JSString`), so
  `length`, `charAt` and the regular-expression character classes see exactly
  what the engine sees.
* A JavaScript number is `JSNum`: NaN, the two infinities, or an exact
  rational (every finite double is a rational; comparisons of doubles are
  exact).
* `throw` is `Except.error`; `try { .. } catch (e) { .. }` is `jsTry`.
-/

set_option autoImplicit false

/-! ## Shared data model -/

/-- A JavaScript string: its sequence of UTF-16 code units. -/
abbrev JSString := List Nat

/-- The code units of a string literal whose characters lie in the Basic
Multilingual Plane (every literal of the example files does). -/
def lit (s : String) : JSString := s.toList.map Char.toNat

/-- A JavaScript number. -/
inductive JSNum where
  | nan
  | negInf
  | fin (q : ℚ)
  | posInf
deriving DecidableEq

namespace JSNum

/-- The relational operator `a < b` on numbers (false when either is NaN). -/
def lt : JSNum → JSNum → Bool
  | nan, _ => false
  | _, nan => false
  | negInf, negInf => false
  | negInf, _ => true
  | _, negInf => false
  | posInf, _ => false
  | fin _, posInf => true
  | fin a, fin b => decide (a < b)

/-- The relational operator `a > b`, which the language evaluates as `b < a`. -/
def gt (a b : JSNum) : Bool := lt b a

/-- The global `isNaN` on a number. -/
def isNaN : JSNum → Bool
  | nan => true
  | _ => false

/-- The relational operator `a <= b` (false when either is NaN). -/
def le (a b : JSNum) : Bool := !isNaN a && !isNaN b && !lt b a

/-- The unary operator `-a`. -/
def neg : JSNum → JSNum
  | nan => nan
  | negInf => posInf
  | fin q => fin (-q)
  | posInf => negInf

/-- How many low bits a natural number has beyond its 53 leading ones: the
number of halvings that bring `m` below 2^53 (`fuel` bounds them; `m` itself
is enough). -/
def excessBits : Nat → Nat → Nat
  | 0, _ => 0
  | fuel + 1, m => if m < 2 ^ 53 then 0 else 1 + excessBits fuel (m / 2)

/-- The double nearest to the natural number `m`, a tie going to the even
significand: `m` rounded to its 53 leading bits (`m` itself below 2^53), and
`Infinity` when the rounded value reaches 2^1024 (`1 <<< k` is 2^k). -/
def ofNatRounded (m : Nat) : JSNum :=
  let ulp := 1 <<< excessBits m m
  let q := m / ulp
  let r := m % ulp
  let significand :=
    if 2 * r < ulp then q else if ulp < 2 * r then q + 1 else if q % 2 = 0 then q else q + 1
  if 1 <<< 1024 ≤ significand * ulp then posInf else fin ((significand * ulp : Nat) : ℚ)

/-- The double whose value is the rational `q`, for a `q` that needs no
rounding of the significand (an integer of at most 53 significant bits times a
power of two): `q` itself below 2^1024 in magnitude, the infinity of its sign
from there on. -/
def ofExact (q : ℚ) : JSNum :=
  if 2 ^ 1024 ≤ q then posInf else if q ≤ -(2 ^ 1024) then negInf else fin q

/-- The operator `a * b`, on operands whose exact product needs no rounding of
the significand. -/
def mul : JSNum → JSNum → JSNum
  | nan, _ => nan
  | _, nan => nan
  | fin a, fin b => ofExact (a * b)
  | fin a, posInf => if a = 0 then nan else if 0 < a then posInf else negInf
  | fin a, negInf => if a = 0 then nan else if 0 < a then negInf else posInf
  | posInf, fin b => if b = 0 then nan else if 0 < b then posInf else negInf
  | negInf, fin b => if b = 0 then nan else if 0 < b then negInf else posInf
  | posInf, posInf => posInf
  | posInf, negInf => negInf
  | negInf, posInf => negInf
  | negInf, negInf => posInf

/-- The operator `a ** n` for a non-negative integer exponent `n`, on a base
whose exact power needs no rounding of the significand. -/
def pow : JSNum → Nat → JSNum
  | _, 0 => fin 1
  | nan, _ + 1 => nan
  | fin a, n + 1 => ofExact (a ^ (n + 1))
  | posInf, _ + 1 => posInf
  | negInf, n + 1 => if (n + 1) % 2 = 1 then negInf else posInf

end JSNum

/-- A thrown value: `new Error(message)`, or an engine-raised `TypeError` or
`ReferenceError`. -/
inductive JSError where
  | error (message : JSString)
  | typeError (message : JSString)
  | referenceError (message : JSString)
deriving DecidableEq

/-- The `message` property read in a `catch (error)` block. -/
def JSError.message : JSError → JSString
  | error m => m
  | typeError m => m
  | referenceError m => m

deriving instance DecidableEq for Except

/-- The statement `try { body } catch (error) { handler error }`. -/
def jsTry {ε α : Type} (body : Except ε α) (handler : ε → Except ε α) : Except ε α :=
  match body with
  | .ok a => .ok a
  | .error e => handler e

/-- A JavaScript value as far as the examples inspect it: the two nullish
values, the primitives, and `other tag` for any further value (an object, a
symbol, ...) identified by an opaque tag. -/
inductive JSValue where
  | undefined
  | null
  | bool (b : Bool)
  | num (n : JSNum)
  | str (s : JSString)
  | other (tag : Nat)
deriving DecidableEq

/-- A plain object: its own properties in insertion order. -/
abbrev JSObject := List (JSString × JSValue)

/-- Property read `o.key`: the own property, `undefined` when absent. -/
def getProp (o : JSObject) (key : JSString) : JSValue :=
  match o.lookup key with
  | some v => v
  | none => .undefined

/-- The abstract operation ToBoolean: whether a value is truthy. -/
def toBoolean : JSValue → Bool
  | .undefined => false
  | .null => false
  | .bool b => b
  | .num n => !(n = .nan || n = .fin 0)
  | .str s => !s.isEmpty
  | .other _ => true

/-- The method `array.includes(v)`: some element is the same value as `v`
(SameValueZero, under which NaN is the same as NaN). -/
def includes (array : List JSValue) (v : JSValue) : Bool := array.contains v

/-! ## Strings and regular expressions -/

/-- The method `s.charAt(i)`: the one-unit string at index `i`, or the empty
string when `i` is out of range. -/
def charAt (s : JSString) (i : Nat) : JSString :=
  match s[i]? with
  | some c => [c]
  | none => []

/-- The method `s.charCodeAt(i)`: `none` stands for NaN (index out of range). -/
def charCodeAt (s : JSString) (i : Nat) : Option Nat := s[i]?

/-- The function `String.fromCharCode(n)`: the argument is taken modulo 2^16,
NaN counting as 0. -/
def fromCharCode (n : Option Nat) : JSString :=
  match n with
  | some c => [c % 65536]
  | none => [0]

/-- The relational operator `a < b` on strings: lexicographic order of the
code units. -/
def strLt : JSString → JSString → Bool
  | [], [] => false
  | [], _ :: _ => true
  | _ :: _, [] => false
  | a :: as, b :: bs => if a < b then true else if b < a then false else strLt as bs

/-- The operator `a > b` on strings. -/
def strGt (a b : JSString) : Bool := strLt b a

/-- The operator `a <= b` on strings. -/
def strLe (a b : JSString) : Bool := !strLt b a

/-- The operator `a >= b` on strings. -/
def strGe (a b : JSString) : Bool := !strLt a b

/-- The class `\d` of a regular expression: the ASCII digits. -/
def isDigit (c : Nat) : Bool := decide (48 ≤ c ∧ c ≤ 57)

/-- The class `\s`, which is also the set of code units removed by `trim` and
skipped by `parseInt`: the WhiteSpace and LineTerminator code points. -/
def isWhiteSpace (c : Nat) : Bool :=
  [9, 10, 11, 12, 13, 32, 160, 5760, 8232, 8233, 8239, 8287, 12288, 65279].contains c
    || decide (8192 ≤ c ∧ c ≤ 8202)

/-- The method `s.trim()`. -/
def trim (s : JSString) : JSString :=
  ((s.dropWhile isWhiteSpace).reverse.dropWhile isWhiteSpace).reverse

/-- The method `s.split(sep)` for a separator of one code unit `sep`. -/
def split (s : JSString) (sep : Nat) : List JSString :=
  match s with
  | [] => [[]]
  | c :: cs =>
    if c = sep then [] :: split cs sep
    else
      match split cs sep with
      | [] => [[c]]
      | part :: parts => (c :: part) :: parts

/-- The method `parts.join(sep)`. -/
def join (parts : List JSString) (sep : JSString) : JSString :=
  match parts with
  | [] => []
  | [part] => part
  | part :: rest => part ++ sep ++ join rest sep

/-- The method `s.replace(/[class]/g, replacement)` for a pattern that is a
single character class with the global flag: every code unit of the class is
replaced. -/
def replaceAll (s : JSString) (cls : Nat → Bool) (replacement : JSString) : JSString :=
  s.flatMap fun c => if cls c then replacement else [c]

/-- The body of a regular expression without flags, captures or assertions. -/
inductive RegExp where
  | none
  | eps
  | cls (p : Nat → Bool)
  | seq (a b : RegExp)
  | alt (a b : RegExp)
  | star (a : RegExp)

namespace RegExp

/-- The pattern `a{n}`. -/
def rep (a : RegExp) : Nat → RegExp
  | 0 => eps
  | n + 1 => seq a (rep a n)

/-- The pattern `a+`. -/
def plus (a : RegExp) : RegExp := seq a (star a)

/-- The pattern that matches the one code unit `c`. -/
def chr (c : Nat) : RegExp := cls fun x => decide (x = c)

/-- Whether the pattern matches the empty string. -/
def nullable : RegExp → Bool
  | none => false
  | eps => true
  | cls _ => false
  | seq a b => nullable a && nullable b
  | alt a b => nullable a || nullable b
  | star _ => true

/-- The Brzozowski derivative: the pattern of what may follow the code unit `c`. -/
def deriv : RegExp → Nat → RegExp
  | none, _ => none
  | eps, _ => none
  | cls p, c => if p c then eps else none
  | seq a b, c =>
    if nullable a then alt (seq (deriv a c) b) (deriv b c) else seq (deriv a c) b
  | alt a b, c => alt (deriv a c) (deriv b c)
  | star a, c => seq (deriv a c) (star a)

/-- Whether the pattern matches the whole of `s`. -/
def fullMatch : RegExp → JSString → Bool
  | r, [] => nullable r
  | r, c :: cs => fullMatch (deriv r c) cs

/-- The method `/^body$/.test(s)` of an anchored pattern without flags: `^`
and `$` match only at the two ends of the input, so the test succeeds exactly
when the body matches the whole string. -/
def test (body : RegExp) (s : JSString) : Bool := fullMatch body s

/-- The language of a pattern: `Matches r s` says that `r` matches the whole
of `s`. -/
inductive Matches : RegExp → JSString → Prop
  | eps : Matches eps []
  | cls (p : Nat → Bool) (c : Nat) : p c = true → Matches (cls p) [c]
  | seq (a b : RegExp) (s t : JSString) : Matches a s → Matches b t → Matches (seq a b) (s ++ t)
  | altLeft (a b : RegExp) (s : JSString) : Matches a s → Matches (alt a b) s
  | altRight (a b : RegExp) (s : JSString) : Matches b s → Matches (alt a b) s
  | starNil (a : RegExp) : Matches (star a) []
  | starCons (a : RegExp) (s t : JSString) :
      Matches a s → Matches (star a) t → Matches (star a) (s ++ t)

end RegExp

/-- The pattern body of `/^\d{3}-\d{3}-\d{4}$/`. -/
def phonePattern : RegExp :=
  .seq (.rep (.cls isDigit) 3) (.seq (.chr 45) (.seq (.rep (.cls isDigit) 3)
    (.seq (.chr 45) (.rep (.cls isDigit) 4))))

/-- The pattern body of `/^[^\s@]+@[^\s@]+\.[^\s@]+$/`. -/
def emailPattern : RegExp :=
  let notSpaceAt : RegExp := .cls fun c => !(isWhiteSpace c || c == 64)
  .seq (.plus notSpaceAt) (.seq (.chr 64) (.seq (.plus notSpaceAt)
    (.seq (.chr 46) (.plus notSpaceAt))))

/-! ## ES3: string handling and form validation -/

namespace ES3

/-- The loop of `oldValidatePhone`, entered at index `i` with `fuel`
iterations left (`phone.length - i`). -/
def oldValidatePhone.loop (phone : JSString) : Nat → Nat → Bool
  | 0, _ => true
  | fuel + 1, i =>
    let char := charAt phone i
    if i ≠ 3 ∧ i ≠ 7 then
      if strLt char (lit "0") || strGt char (lit "9") then false
      else oldValidatePhone.loop phone fuel (i + 1)
    else oldValidatePhone.loop phone fuel (i + 1)

/-- The function `oldValidatePhone(phone)`. -/
def oldValidatePhone (phone : JSString) : Bool :=
  if phone.length ≠ 12 then false
  else if charAt phone 3 ≠ lit "-" then false
  else if charAt phone 7 ≠ lit "-" then false
  else oldValidatePhone.loop phone phone.length 0

/-- The function `modernValidatePhone(phone)`. -/
def modernValidatePhone (phone : JSString) : Bool :=
  RegExp.test phonePattern phone

/-- The shape named by the specification of the two phone validators: twelve
code units `ddd-ddd-dddd`, each `d` an ASCII digit `0`..`9` and each `-` the
hyphen-minus. -/
def phoneForm : JSString → Bool
  | [d0, d1, d2, h3, d4, d5, d6, h7, d8, d9, d10, d11] =>
    isDigit d0 && isDigit d1 && isDigit d2 && h3 == 45 && isDigit d4 && isDigit d5
      && isDigit d6 && h7 == 45 && isDigit d8 && isDigit d9 && isDigit d10 && isDigit d11
  | _ => false

/-- The loop of `oldCreateSlug`, entered at index `i` with `fuel` iterations
left and the slug built so far. -/
def oldCreateSlug.loop (title : JSString) : Nat → Nat → JSString → JSString
  | 0, _, result => result
  | fuel + 1, i, result =>
    let char := charAt title i
    if char = lit " " then
      oldCreateSlug.loop title fuel (i + 1) (result ++ lit "-")
    else if (strGe char (lit "a") && strLe char (lit "z"))
        || (strGe char (lit "0") && strLe char (lit "9")) then
      oldCreateSlug.loop title fuel (i + 1) (result ++ char)
    else if strGe char (lit "A") && strLe char (lit "Z") then
      oldCreateSlug.loop title fuel (i + 1)
        (result ++ fromCharCode ((charCodeAt char 0).map (· + 32)))
    else
      oldCreateSlug.loop title fuel (i + 1) result

/-- What one iteration of the loop of `oldCreateSlug` appends to the slug when
the code unit read is `c`. -/
def slugOfUnit (c : Nat) : JSString :=
  if c = 32 then [45]
  else if (97 ≤ c ∧ c ≤ 122) ∨ (48 ≤ c ∧ c ≤ 57) then [c]
  else if 65 ≤ c ∧ c ≤ 90 then [(c + 32) % 65536]
  else []

/-- The function `oldCreateSlug(title)`. -/
def oldCreateSlug (title : JSString) : JSString :=
  oldCreateSlug.loop title title.length 0 []

/-- The method `s.toLowerCase()`.  On a string of ASCII code units it maps
`A`..`Z` to `a`..`z` and keeps every other code unit; on any other string the
result is given by the Unicode case-mapping tables, which are not part of the
repository and are taken as the parameter `unicodeLower`. -/
def toLowerCase (unicodeLower : JSString → JSString) (s : JSString) : JSString :=
  if s.all (fun c => decide (c < 128)) then
    s.map fun c => if 65 ≤ c ∧ c ≤ 90 then c + 32 else c
  else unicodeLower s

/-- The class `[^a-z0-9-]`. -/
def notSlugChar (c : Nat) : Bool :=
  !(decide (97 ≤ c ∧ c ≤ 122) || decide (48 ≤ c ∧ c ≤ 57) || decide (c = 45))

/-- The function `modernCreateSlug(title)`. -/
def modernCreateSlug (unicodeLower : JSString → JSString) (title : JSString) : JSString :=
  replaceAll (join (split (toLowerCase unicodeLower title) 32) (lit "-")) notSlugChar (lit "")

/-- The digits of a decimal numeral as a natural number. -/
def digitsValue (z : JSString) : Nat :=
  z.foldl (fun acc c => acc * 10 + (c - 48)) 0

/-- The global `parseInt(string, 10)` on a string: skip leading white space,
read an optional sign, then the longest run of decimal digits; NaN when that
run is empty, otherwise the double nearest to the integer read, with its
sign (`Infinity` or `-Infinity` for a run too long for a double).  Past the
20th significant digit an engine may read the digits as zeros; the model
rounds the integer as written, and the two differ only above `10 ^ 19`. -/
def parseInt (string : JSString) : JSNum :=
  let s := string.dropWhile isWhiteSpace
  let negative : Bool := match s with
    | 45 :: _ => true
    | _ => false
  let s := match s with
    | 45 :: rest => rest
    | 43 :: rest => rest
    | _ => s
  let z := s.takeWhile isDigit
  if z = [] then .nan
  else if negative then JSNum.neg (JSNum.ofNatRounded (digitsValue z))
  else JSNum.ofNatRounded (digitsValue z)

/-- A thrown value, as far as a `catch` block that reads its `message` sees
it: an Error object (of the program or of the engine); `undefined` or `null`,
on which the read itself raises a TypeError; any other value, with what its
`message` property holds (`undefined` for a primitive); or an object whose
`message` getter raises in turn. -/
inductive Thrown where
  | error (e : JSError)
  | undefined
  | null
  | other (message : JSValue)
  | messageRaises (raised : Thrown)

/-- The property read `error.message` on a caught value. -/
def Thrown.readMessage : Thrown → Except Thrown JSValue
  | .error e => .ok (.str e.message)
  | .undefined => .error (.error (.typeError (lit "Cannot read properties of undefined")))
  | .null => .error (.error (.typeError (lit "Cannot read properties of null")))
  | .other message => .ok message
  | .messageRaises raised => .error raised

/-- The argument `age` as `parseInt(age, 10)` uses it: the conversion of `age`
to a string returns `s` (the string itself, the digits of a number, the result
of the conversion methods of an object), or it raises (for a Symbol a
TypeError, for an object whatever its conversion methods throw). -/
inductive AgeArgument where
  | converts (s : JSString)
  | raises (thrown : Thrown)

/-- The object returned by the `validate...` methods. -/
structure ValidationResult where
  valid : Bool
  message : JSValue
deriving DecidableEq

namespace FormValidator

/-- The method `validateAge(age)`.  The conversion of `age` to a string
happens inside `parseInt`, within the `try`; the `catch` block reads
`error.message` outside it. -/
def validateAge (age : AgeArgument) : Except Thrown ValidationResult :=
  jsTry
    (match age with
     | .raises thrown => .error thrown
     | .converts s =>
       let numAge := parseInt s
       if JSNum.isNaN numAge then
         .error (.error (.error (lit "Age must be a number")))
       else if JSNum.lt numAge (.fin 0) = true then
         .error (.error (.error (lit "Age cannot be negative")))
       else if JSNum.lt numAge (.fin 13) = true then
         .error (.error (.error (lit "Must be at least 13 years old")))
       else if JSNum.gt numAge (.fin 120) = true then
         .error (.error (.error (lit "Invalid age")))
       else
         .ok { valid := true, message := .str (lit "Valid age") })
    (fun error =>
      match error.readMessage with
      | .ok message => .ok { valid := false, message := message }
      | .error raised => .error raised)

end FormValidator

end ES3

/-! ## ES2016: `GameScore` -/

namespace ES2016

/-- Instance state of `class GameScore`. -/
structure GameScore where
  baseScore : Int
  multiplier : Int
  bonusItems : List JSString
deriving DecidableEq

namespace GameScore

/-- The `constructor()`. -/
def new : GameScore :=
  { baseScore := 100, multiplier := 1, bonusItems := [] }

/-- Method `calculateScore(level)`: `this.baseScore * (this.multiplier ** level)`. -/
def calculateScore (this : GameScore) (level : Nat) : Int :=
  this.baseScore * (this.multiplier ^ level)

/-- Method `addBonusItem(item)`: the returned boolean and the updated instance. -/
def addBonusItem (this : GameScore) (item : JSString) : Bool × GameScore :=
  let validItems := [lit "coin", lit "star", lit "powerup"]
  if validItems.contains item then
    (true, { this with bonusItems := this.bonusItems ++ [item] })
  else
    (false, this)

/-- Method `hasBonusItem(item)`. -/
def hasBonusItem (this : GameScore) (item : JSString) : Bool :=
  this.bonusItems.contains item

/-- Method `applyBonus()`: `this.multiplier **= 2` when a powerup is held. -/
def applyBonus (this : GameScore) : GameScore :=
  if this.hasBonusItem (lit "powerup") then
    { this with multiplier := this.multiplier ^ 2 }
  else
    this

end GameScore

/-- The top-level statements `const game = new GameScore();
game.addBonusItem("powerup"); game.applyBonus();`. -/
def game : GameScore :=
  ((GameScore.new.addBonusItem (lit "powerup")).2).applyBonus

/-- Instance state of `class AccessControl`. -/
structure AccessControl where
  allowedIPs : List JSValue
  blockedPaths : List JSValue
deriving DecidableEq

namespace AccessControl

/-- The `constructor()`. -/
def new : AccessControl :=
  { allowedIPs := [.str (lit "192.168.1.1"), .str (lit "192.168.1.100"), .str (lit "10.0.0.5")],
    blockedPaths := [.str (lit "/admin"), .str (lit "/config"), .str (lit "/internal")] }

/-- Method `isIPAllowed(ip)`. -/
def isIPAllowed (this : AccessControl) (ip : JSValue) : Bool :=
  includes this.allowedIPs ip

/-- Method `isPathBlocked(path)`. -/
def isPathBlocked (this : AccessControl) (path : JSValue) : Bool :=
  includes this.blockedPaths path

/-- Method `canAccess(ip, path)`. -/
def canAccess (this : AccessControl) (ip path : JSValue) : Bool :=
  this.isIPAllowed ip && !this.isPathBlocked path

/-- Method `getRetryDelay(attemptNumber)` for a non-negative integer
`attemptNumber`: `baseDelay * (2 ** attemptNumber)`. -/
def getRetryDelay (_this : AccessControl) (attemptNumber : Nat) : JSNum :=
  let baseDelay : JSNum := .fin 1000
  JSNum.mul baseDelay (JSNum.pow (.fin 2) attemptNumber)

end AccessControl

/-- The top-level statement `const access = new AccessControl();`. -/
def access : AccessControl := AccessControl.new

end ES2016

/-! ## ES2020: nullish coalescing and BigInt -/

namespace ES2020

/-- The operator `lhs ?? rhs`. -/
def nullish (lhs rhs : JSValue) : JSValue :=
  match lhs with
  | .undefined => rhs
  | .null => rhs
  | v => v

/-- The function `processFormData(formData)` on an object `formData`. -/
def processFormData (formData : JSObject) : JSObject :=
  [ (lit "name", nullish (getProp formData (lit "name")) (.str (lit "Guest"))),
    (lit "age", nullish (getProp formData (lit "age")) (.num (.fin 18))),
    (lit "count", nullish (getProp formData (lit "count")) (.num (.fin 0))),
    (lit "enabled", nullish (getProp formData (lit "enabled")) (.bool true)) ]

/-- The BigInt constant `maxSafeInt = 9007199254740991n`. -/
def maxSafeInt : Int := 9007199254740991

/-- The BigInt constant `larger = maxSafeInt + 1000n`. -/
def larger : Int := maxSafeInt + 1000

/-- A value of the script model: a primitive, a BigInt, an object with its own
properties, or a function named after its declaration. -/
inductive Value where
  | undefined
  | null
  | num (n : JSNum)
  | str (s : JSString)
  | bigint (n : Int)
  | object (props : List (JSString × Value))
  | function (name : JSString)

/-- The property read `v.prop` on a value that is neither `undefined` nor
`null`: the own property of an object, `undefined` when there is none (the
built-in properties of functions and primitives are not part of the model). -/
def Value.member (v : Value) (prop : JSString) : Value :=
  match v with
  | .object props =>
    match props.lookup prop with
    | some x => x
    | none => .undefined
  | _ => .undefined

/-- The expressions of the top-level statements of the file. -/
inductive Expr where
  | ident (name : JSString)
  | optMember (object : Expr) (prop : JSString)
  | nullish (lhs rhs : Expr)
  | const (v : Value)
  | add (lhs rhs : Expr)

/-- The top-level statements of the file; `constObject` is a `const` whose
initializer is an object literal. -/
inductive Stmt where
  | functionDecl (name : JSString)
  | const (name : JSString) (init : Expr)
  | constObject (name : JSString) (fields : List (JSString × Expr))
  | consoleLog (arg : Expr)

/-- The bindings in scope: those of the script in front of those of the host. -/
abbrev Env := List (JSString × Value)

/-- Evaluation of an expression.  An identifier that resolves to no binding
raises a ReferenceError, also in front of `?.`; `object?.prop` is `undefined`
when `object` is `undefined` or `null`; `lhs ?? rhs` evaluates `rhs` only when
`lhs` is `undefined` or `null`; `+` is the BigInt addition of the file, and a
BigInt added to anything else (as an operand of any other type to a BigInt)
raises a TypeError. -/
def eval (env : Env) : Expr → Except JSError Value
  | .ident name =>
    match env.lookup name with
    | some v => .ok v
    | none => .error (.referenceError (name ++ lit " is not defined"))
  | .optMember object prop =>
    match eval env object with
    | .error e => .error e
    | .ok .undefined => .ok .undefined
    | .ok .null => .ok .undefined
    | .ok v => .ok (v.member prop)
  | .nullish lhs rhs =>
    match eval env lhs with
    | .error e => .error e
    | .ok .undefined => eval env rhs
    | .ok .null => eval env rhs
    | .ok v => .ok v
  | .const v => .ok v
  | .add lhs rhs =>
    match eval env lhs with
    | .error e => .error e
    | .ok a =>
      match eval env rhs with
      | .error e => .error e
      | .ok b =>
        match a, b with
        | .bigint x, .bigint y => .ok (.bigint (x + y))
        | _, _ => .error (.typeError (lit "Cannot mix BigInt and other types"))

/-- Evaluation of the properties of an object literal, in source order. -/
def evalFields (env : Env) :
    List (JSString × Expr) → Except JSError (List (JSString × Value))
  | [] => .ok []
  | (key, e) :: rest =>
    match eval env e with
    | .error err => .error err
    | .ok v =>
      match evalFields env rest with
      | .error err => .error err
      | .ok props => .ok ((key, v) :: props)

/-- The state of a run: the bindings and the lines written by `console.log`. -/
structure RunState where
  env : Env
  log : List Value

/-- Execution of one top-level statement.  A function declaration was bound
when the script was entered and does nothing when reached. -/
def execStmt (st : RunState) : Stmt → Except JSError RunState
  | .functionDecl _ => .ok st
  | .const name init =>
    match eval st.env init with
    | .error e => .error e
    | .ok v => .ok { st with env := (name, v) :: st.env }
  | .constObject name fields =>
    match evalFields st.env fields with
    | .error e => .error e
    | .ok props => .ok { st with env := (name, .object props) :: st.env }
  | .consoleLog arg =>
    match eval st.env arg with
    | .error e => .error e
    | .ok v => .ok { st with log := st.log ++ [v] }

/-- Execution of the statements in order, up to the first one that raises:
the state reached and the completion. -/
def execStmts (st : RunState) : List Stmt → RunState × Except JSError Unit
  | [] => (st, .ok ())
  | stmt :: rest =>
    match execStmt st stmt with
    | .error e => (st, .error e)
    | .ok st1 => execStmts st1 rest

/-- The functions a script declares, bound before its first statement runs. -/
def hoisted : List Stmt → Env
  | [] => []
  | .functionDecl name :: rest => (name, .function name) :: hoisted rest
  | _ :: rest => hoisted rest

/-- The run of a script from top to bottom in a host that provides the global
bindings `host`. -/
def runScript (host : Env) (script : List Stmt) : RunState × Except JSError Unit :=
  execStmts { env := hoisted script ++ host, log := [] } script

/-- The expression `config?.<group>?.<prop> ?? fallback` of the `settings`
initializer. -/
def configOr (group prop : JSString) (fallback : Value) : Expr :=
  .nullish (.optMember (.optMember (.ident (lit "config")) group) prop) (.const fallback)

/-- The top-level statements of the file, in source order. -/
def codeExamples : List Stmt :=
  [ .functionDecl (lit "getUserCity"),
    .functionDecl (lit "processFormData"),
    .constObject (lit "settings")
      [ (lit "volume", configOr (lit "audio") (lit "volume") (.num (.fin 50))),
        (lit "theme", configOr (lit "display") (lit "theme") (.str (lit "light"))) ],
    .functionDecl (lit "loadAllData"),
    .const (lit "maxSafeInt") (.const (.bigint 9007199254740991)),
    .const (lit "larger") (.add (.ident (lit "maxSafeInt")) (.const (.bigint 1000))),
    .consoleLog (.ident (lit "larger")),
    .functionDecl (lit "loadFeature") ]

end ES2020

/-! ## ES5: getters and setters -/

namespace ES5

/-- The object `temperature`: its one data property. -/
structure Temperature where
  celsius : ℚ
deriving DecidableEq

/-- The object literal `temperature = { celsius: 20, ... }`. -/
def temperature : Temperature := { celsius := 20 }

namespace Temperature

/-- The getter `get fahrenheit()`: `(this.celsius * 9/5) + 32`. -/
def fahrenheit (this : Temperature) : ℚ :=
  (this.celsius * 9 / 5) + 32

/-- The setter `set fahrenheit(value)`: `this.celsius = (value - 32) * 5/9`. -/
def setFahrenheit (_this : Temperature) (value : ℚ) : Temperature :=
  { celsius := (value - 32) * 5 / 9 }

end Temperature

/-- The object `user`: its one data property `_age`. -/
structure User where
  _age : JSNum
deriving DecidableEq

/-- The object literal `user = { _age: 0, ... }`. -/
def user : User := { _age := .fin 0 }

namespace User

/-- The getter `get age()`. -/
def age (this : User) : JSNum := this._age

/-- The setter `set age(value)`: the completion (normal or a thrown error)
together with the object after the call. -/
def setAge (this : User) (value : JSNum) : Except JSError Unit × User :=
  if JSNum.lt value (.fin 0) || JSNum.gt value (.fin 150) then
    (.error (.error (lit "Invalid age")), this)
  else
    (.ok (), { this with _age := value })

end User

/-- The names every plain object inherits from `Object.prototype`: reading one
of them from an object that has no own property of that name yields the
built-in value, which is truthy and has no `test` method. -/
def objectPrototypeKeys : List JSString :=
  [lit "constructor", lit "toString", lit "toLocaleString", lit "valueOf",
    lit "hasOwnProperty", lit "isPrototypeOf", lit "propertyIsEnumerable", lit "__proto__",
    lit "__defineGetter__", lit "__defineSetter__", lit "__lookupGetter__",
    lit "__lookupSetter__"]

/-- The result of the property read `this.rules[field]`. -/
inductive RuleLookup where
  | regexp (body : RegExp)
  | inherited
  | undefined

/-- The object returned by `FormValidator.validate`. -/
structure ValidationReport where
  isValid : Bool
  errors : List JSString
deriving DecidableEq

namespace FormValidator

/-- The property read `this.rules[field]` on the object literal
`rules: { email: /.../, phone: /.../ }`: an own property, else a property
inherited from `Object.prototype`, else `undefined`. -/
def rules (field : JSString) : RuleLookup :=
  if field = lit "email" then .regexp emailPattern
  else if field = lit "phone" then .regexp phonePattern
  else if objectPrototypeKeys.contains field then .inherited
  else .undefined

/-- The callback passed to `forEach` in `validate`, for one `field` holding the
string `value`; `errors` is the array before and after the call.  When
`this.rules[field]` is an inherited built-in, the call of its missing `test`
method raises a TypeError (the message is the one V8 gives). -/
def validateField (errors : List JSString) (field value : JSString) :
    Except JSError (List JSString) :=
  if (trim value).length = 0 then
    .ok (errors ++ [field ++ lit " is required"])
  else
    match rules field with
    | .undefined => .ok errors
    | .regexp body =>
      if !RegExp.test body value then .ok (errors ++ [field ++ lit " format is invalid"])
      else .ok errors
    | .inherited => .error (.typeError (lit "this.rules[field].test is not a function"))

/-- The loop `Object.keys(formData).forEach(...)`: the fields in key order,
stopping at the first exception. -/
def forEachField (errors : List JSString) :
    List (JSString × JSString) → Except JSError (List JSString)
  | [] => .ok errors
  | (field, value) :: rest =>
    match validateField errors field value with
    | .ok errors1 => forEachField errors1 rest
    | .error e => .error e

/-- The method `validate(formData)` on a form whose values are strings, given
as its own enumerable properties in `Object.keys` order. -/
def validate (formData : List (JSString × JSString)) : Except JSError ValidationReport :=
  match forEachField [] formData with
  | .ok errors => .ok { isValid := errors.length == 0, errors := errors }
  | .error e => .error e

/-- The message the specification expects for one field holding the string
`value`: '<field> is required' for a value that is blank after trimming,
'<field> format is invalid' for a non-blank `email` or `phone` value that fails
its pattern, none otherwise. -/
def expectedError (field value : JSString) : Option JSString :=
  if trim value = [] then some (field ++ lit " is required")
  else if field = lit "email" ∧ RegExp.test emailPattern value = false then
    some (field ++ lit " format is invalid")
  else if field = lit "phone" ∧ RegExp.test phonePattern value = false then
    some (field ++ lit " format is invalid")
  else none

end FormValidator

/-- The object literal `form`. -/
def form : List (JSString × JSString) :=
  [(lit "email", lit "user@example.com"), (lit "phone", lit "123-456-7890")]

/-- The array literal `users`. -/
def users : List JSObject :=
  [ [(lit "name", .str (lit "John")), (lit "age", .num (.fin 25)), (lit "active", .bool true)],
    [(lit "name", .str (lit "Jane")), (lit "age", .num (.fin 30)), (lit "active", .bool false)],
    [(lit "name", .str (lit "Bob")), (lit "age", .num (.fin 35)), (lit "active", .bool true)],
    [(lit "name", .str (lit "Alice")), (lit "age", .num (.fin 28)), (lit "active", .bool true)] ]

/-- The loop of `getActiveUserNamesOld`, entered at index `i` with `fuel`
iterations left (`users.length - i`) and the array `names` built so far.
Reading a property of `users[i]` raises a TypeError if the index is out of
range. -/
def getActiveUserNamesOld.loop (users : List JSObject) :
    Nat → Nat → List JSValue → Except JSError (List JSValue)
  | 0, _, names => .ok names
  | fuel + 1, i, names =>
    match users[i]? with
    | none => .error (.typeError (lit "Cannot read properties of undefined"))
    | some user =>
      if toBoolean (getProp user (lit "active")) then
        getActiveUserNamesOld.loop users fuel (i + 1) (names ++ [getProp user (lit "name")])
      else
        getActiveUserNamesOld.loop users fuel (i + 1) names

/-- The function `getActiveUserNamesOld(users)` on an array of objects. -/
def getActiveUserNamesOld (users : List JSObject) : Except JSError (List JSValue) :=
  getActiveUserNamesOld.loop users users.length 0 []

/-- The function `getActiveUserNames(users)` on an array of objects. -/
def getActiveUserNames (users : List JSObject) : Except JSError (List JSValue) :=
  .ok ((users.filter fun user => toBoolean (getProp user (lit "active"))).map
    fun user => getProp user (lit "name"))

/-- What the specification says both functions return: the names of the users
whose active flag is truthy, in their original order. -/
def activeNames : List JSObject → List JSValue
  | [] => []
  | user :: rest =>
    if toBoolean (getProp user (lit "active")) then getProp user (lit "name") :: activeNames rest
    else activeNames rest

/-- The directive prologue of the file: after the two comment lines its first
statement is the string literal `"use strict"`. -/
def directivePrologue : List JSString := [lit "use strict"]

/-- Whether the code of the file is strict mode code: its directive prologue
holds the Use Strict Directive. -/
def strictMode : Bool := directivePrologue.contains (lit "use strict")

/-- A data property with its attributes. -/
structure Property where
  value : JSValue
  writable : Bool
  enumerable : Bool
  configurable : Bool
deriving DecidableEq

/-- An extensible object whose own properties carry attributes. -/
abbrev PropertyObject := List (JSString × Property)

/-- Replace the property `key` in place. -/
def replaceProperty (o : PropertyObject) (key : JSString) (p : Property) : PropertyObject :=
  o.map fun kp => if kp.1 = key then (kp.1, p) else kp

/-- The call `Object.defineProperty(o, key, desc)` with a full data
descriptor: a new property is added; a configurable one is replaced; on a
non-configurable one only the changes the language allows are applied, any
other raises a TypeError. -/
def defineProperty (o : PropertyObject) (key : JSString) (desc : Property) :
    Except JSError PropertyObject :=
  match o.lookup key with
  | none => .ok (o ++ [(key, desc)])
  | some old =>
    if old.configurable then .ok (replaceProperty o key desc)
    else if desc.configurable || desc.enumerable != old.enumerable then
      .error (.typeError (lit "Cannot redefine property"))
    else if old.writable then .ok (replaceProperty o key desc)
    else if desc.writable || desc.value != old.value then
      .error (.typeError (lit "Cannot redefine property"))
    else .ok o

/-- The property read `o.key`. -/
def readProperty (o : PropertyObject) (key : JSString) : JSValue :=
  match o.lookup key with
  | some p => p.value
  | none => .undefined

/-- The assignment `o.key = v`.  A writable own property takes the value; a
new property is created writable, enumerable and configurable; on a
non-writable own property the assignment raises a TypeError in strict mode
code and does nothing otherwise. -/
def assignProperty (strict : Bool) (o : PropertyObject) (key : JSString) (v : JSValue) :
    Except JSError PropertyObject :=
  match o.lookup key with
  | none =>
    .ok (o ++ [(key, { value := v, writable := true, enumerable := true, configurable := true })])
  | some p =>
    if p.writable then .ok (replaceProperty o key { p with value := v })
    else if strict then .error (.typeError (lit "Cannot assign to read only property"))
    else .ok o

/-- The descriptor passed to `Object.defineProperty(product, "price", ...)`. -/
def priceDescriptor : Property :=
  { value := .num (.fin (9999 / 100)), writable := false, enumerable := true,
    configurable := false }

/-- The statements of the `Object.defineProperty()` demonstration, from
`var product = {};` to the second `console.log(product.price);`, run as strict
mode code or not: the values logged and the completion (the object `product`
at the end, or the error raised). -/
def productDemo (strict : Bool) : List JSValue × Except JSError PropertyObject :=
  let product : PropertyObject := []
  match defineProperty product (lit "price") priceDescriptor with
  | .error e => ([], .error e)
  | .ok product1 =>
    let log1 := [readProperty product1 (lit "price")]
    match assignProperty strict product1 (lit "price") (.num (.fin (4999 / 100))) with
    | .error e => (log1, .error e)
    | .ok product2 => (log1 ++ [readProperty product2 (lit "price")], .ok product2)

end ES5

/-! ## ES2018: `StateManager` over an explicit heap -/

namespace ES2018

/-- A value of the heap model: a primitive, a reference to an object of the
heap, the intrinsic `Object.prototype`, or the built-in function that
`Object.prototype` holds under `name` (`constructor` is `Object`). -/
inductive Val where
  | undefined
  | null
  | bool (b : Bool)
  | num (n : JSNum)
  | str (s : JSString)
  | ref (addr : Nat)
  | objectPrototype
  | builtin (name : JSString)
deriving DecidableEq

/-- An object of the heap: its prototype, its own enumerable data properties
in insertion order, and its own data properties that are not enumerable (the
`length` of an array, a property defined with `enumerable: false`). -/
structure Obj where
  proto : Val
  props : List (JSString × Val)
  hidden : List (JSString × Val)
deriving DecidableEq

/-- The heap: the object at address `a` is the `a`-th entry. -/
abbrev Heap := List Obj

/-- The properties of the built-in functions: `intrinsics name key` is what
reading `key` from the built-in function `name` yields.  The engine provides
them; they are a parameter of the model. -/
abbrev Intrinsics := JSString → JSString → Val

/-- A table of intrinsics without entries, for runs that read no property of
a built-in function. -/
def noIntrinsics : Intrinsics := fun _ _ => .undefined

/-- The property name `__proto__`. -/
def protoKey : JSString := lit "__proto__"

/-- The names of the built-in methods that `Object.prototype` holds as data
properties, none of them enumerable. -/
def objectPrototypeMethods : List JSString :=
  ES5.objectPrototypeKeys.filter fun key => key != protoKey

/-- Allocation of a new object: the extended heap and the reference. -/
def alloc (h : Heap) (o : Obj) : Heap × Val := (h ++ [o], .ref h.length)

/-- The own enumerable properties that the spread `{ ...v }` copies: those of
an object of the heap, the indexed code units of a string, none for the other
values (the properties of the intrinsics are not enumerable). -/
def ownEnumerable (h : Heap) (v : Val) : List (JSString × Val) :=
  match v with
  | .ref a =>
    match h[a]? with
    | some o => o.props
    | none => []
  | .str s => s.enum.map fun ic => (lit (toString ic.1), Val.str [ic.2])
  | _ => []

/-- The object literal `{ ...v }`: a new object with prototype
`Object.prototype` and the copied properties. -/
def spread (h : Heap) (v : Val) : Obj :=
  { proto := .objectPrototype, props := ownEnumerable h v, hidden := [] }

/-- The outcome of looking a property name up along a prototype chain. -/
inductive Lookup where
  | data (v : Val)
  | protoAccessor
  | absent

/-- Look `key` up in `v` and then along its prototype chain (at most `fuel`
objects): own properties first, enumerable or not, then the prototype.
`Object.prototype` holds the accessor `__proto__` and its built-in methods;
a built-in function inherits the accessor too. -/
def findProp (intrinsics : Intrinsics) (h : Heap) : Nat → Val → JSString → Lookup
  | 0, _, _ => .absent
  | fuel + 1, .ref b, key =>
    match h[b]? with
    | none => .absent
    | some o =>
      match o.props.lookup key with
      | some x => .data x
      | none =>
        match o.hidden.lookup key with
        | some x => .data x
        | none => findProp intrinsics h fuel o.proto key
  | _ + 1, .objectPrototype, key =>
    if key = protoKey then .protoAccessor
    else if objectPrototypeMethods.contains key then .data (.builtin key)
    else .absent
  | _ + 1, .builtin name, key =>
    if key = protoKey then .protoAccessor else .data (intrinsics name key)
  | _ + 1, _, _ => .absent

/-- The prototype of a value, as the `__proto__` getter returns it. -/
def protoOf (intrinsics : Intrinsics) (h : Heap) (v : Val) : Val :=
  match v with
  | .ref a =>
    match h[a]? with
    | some o => o.proto
    | none => .undefined
  | .objectPrototype => .null
  | .builtin name => intrinsics name protoKey
  | _ => .undefined

/-- The property read `v[key]`.  The code applies it to objects only; on a
primitive the model reads `undefined`. -/
def get (intrinsics : Intrinsics) (h : Heap) (v : Val) (key : JSString) : Val :=
  match findProp intrinsics h (h.length + 1) v key with
  | .data x => x
  | .protoAccessor => protoOf intrinsics h v
  | .absent => .undefined

/-- Assignment to a data property in a list of own properties: replace the
value in place, or append a new property. -/
def assignOwn (props : List (JSString × Val)) (key : JSString) (v : Val) :
    List (JSString × Val) :=
  match props with
  | [] => [(key, v)]
  | (k, x) :: rest => if k = key then (k, v) :: rest else (k, x) :: assignOwn rest key v

/-- Assignment to an own data property of an object: an existing property
takes the value (the model has no read-only property), a new one is created
enumerable. -/
def assignData (o : Obj) (key : JSString) (v : Val) : Obj :=
  if (o.props.lookup key).isNone && (o.hidden.lookup key).isSome then
    { o with hidden := assignOwn o.hidden key v }
  else
    { o with props := assignOwn o.props key v }

/-- Whether a value is an object or `null` (what the `__proto__` setter accepts). -/
def isObjectOrNull : Val → Bool
  | .ref _ => true
  | .objectPrototype => true
  | .builtin _ => true
  | .null => true
  | _ => false

/-- The assignment `target[key] = v` (strict mode) to an object of the heap.
When the name resolves to the `__proto__` accessor the setter runs: it
replaces the prototype if `v` is an object or `null` and does nothing
otherwise.  In every other case an own data property is written.  A target
that is not an object of the heap raises a TypeError (the code assigns to new
objects only). -/
def setProp (intrinsics : Intrinsics) (h : Heap) (target : Val) (key : JSString) (v : Val) :
    Except JSError Heap :=
  match target with
  | .ref a =>
    match h[a]? with
    | none => .error (.typeError (lit "Cannot set properties of undefined"))
    | some o =>
      match findProp intrinsics h (h.length + 1) target key with
      | .protoAccessor =>
        if isObjectOrNull v then .ok (h.set a { o with proto := v }) else .ok h
      | _ => .ok (h.set a (assignData o key v))
  | _ => .error (.typeError (lit "Cannot set properties of undefined"))

namespace StateManager

/-- The loop of `updateNested` over the keys before the last one: each step
runs `current[key] = { ...current[key] }; current = current[key]`. -/
def updateNested.loop (intrinsics : Intrinsics) (h : Heap) (current : Val) :
    List JSString → Except JSError (Heap × Val)
  | [] => .ok (h, current)
  | key :: keys =>
    let (h1, copy) := alloc h (spread h (get intrinsics h current key))
    match setProp intrinsics h1 current key copy with
    | .error e => .error e
    | .ok h2 => updateNested.loop intrinsics h2 (get intrinsics h2 current key) keys

/-- The method `updateNested(path, value)`: `state` is `this.state` before the
call, the result is the heap and `this.state` after it.  The listeners called
by `notify()` are taken not to write to the heap (the one of the sample logs
the state). -/
def updateNested (intrinsics : Intrinsics) (h : Heap) (state : Val) (path : JSString)
    (value : Val) : Except JSError (Heap × Val) :=
  let keys := split path 46
  let (h0, newState) := alloc h (spread h state)
  match updateNested.loop intrinsics h0 newState keys.dropLast with
  | .error e => .error e
  | .ok (h1, current) =>
    match setProp intrinsics h1 current (keys.getLast?.getD (lit "undefined")) value with
    | .error e => .error e
    | .ok h2 => .ok (h2, newState)

end StateManager

/-- The value found by reading the keys one after the other from `v`. -/
def getPath (intrinsics : Intrinsics) (h : Heap) (v : Val) : List JSString → Val
  | [] => v
  | key :: keys => getPath intrinsics h (get intrinsics h v key) keys

/-- Whether a value is an object: an object of the heap or an intrinsic. -/
def isObject (h : Heap) (v : Val) : Bool :=
  match v with
  | .ref a => decide (a < h.length)
  | .objectPrototype => true
  | .builtin _ => true
  | _ => false

/-- Whether a value is an object or absent. -/
def isObjectOrAbsent (h : Heap) (v : Val) : Bool :=
  match v with
  | .undefined => true
  | _ => isObject h v

/-- Whether the values met by reading `keys` one after the other from `v` are
all objects or absent. -/
def objectsOrAbsent (intrinsics : Intrinsics) (h : Heap) (v : Val) : List JSString → Bool
  | [] => true
  | key :: keys =>
    isObjectOrAbsent h (get intrinsics h v key) &&
      objectsOrAbsent intrinsics h (get intrinsics h v key) keys

/-- Whether a value is a plain object: an object of the heap whose prototype
is `Object.prototype` and whose own properties are all enumerable (what an
object literal or `JSON.parse` creates). -/
def isPlainObject (h : Heap) (v : Val) : Bool :=
  match v with
  | .ref a =>
    match h[a]? with
    | some o => o.proto == .objectPrototype && o.hidden.isEmpty
    | none => false
  | _ => false

/-- Whether a value is a plain object or absent. -/
def isPlainOrAbsent (h : Heap) (v : Val) : Bool :=
  match v with
  | .undefined => true
  | _ => isPlainObject h v

/-- Whether the values met by reading `keys` one after the other from `v` are
all plain objects or absent. -/
def plainOrAbsentAlong (intrinsics : Intrinsics) (h : Heap) (v : Val) : List JSString → Bool
  | [] => true
  | key :: keys =>
    isPlainOrAbsent h (get intrinsics h v key) &&
      plainOrAbsentAlong intrinsics h (get intrinsics h v key) keys

/-- What an object with prototype `Object.prototype` reads under a name it
does not own: its prototype under `__proto__`, the built-in method under the
name of one, `undefined` otherwise. -/
def inherited (key : JSString) : Val :=
  if key = protoKey then .objectPrototype
  else if objectPrototypeMethods.contains key then .builtin key
  else .undefined

/-- The heap of the sample store: the objects of `{ user: { name: "John",
preferences: { theme: "light" } }, count: 0 }`, the root at address 2. -/
def storeHeap : Heap :=
  [ { proto := .objectPrototype, props := [(lit "theme", .str (lit "light"))], hidden := [] },
    { proto := .objectPrototype,
      props := [(lit "name", .str (lit "John")), (lit "preferences", .ref 0)], hidden := [] },
    { proto := .objectPrototype, props := [(lit "user", .ref 1), (lit "count", .num (.fin 0))],
      hidden := [] } ]

/-- The heap of `{ user }` with `user = Object.create({ role: "admin" });
user.name = "John"`: the prototype at address 0, `user` at 1, the root at 2. -/
def inheritingHeap : Heap :=
  [ { proto := .objectPrototype, props := [(lit "role", .str (lit "admin"))], hidden := [] },
    { proto := .ref 0, props := [(lit "name", .str (lit "John"))], hidden := [] },
    { proto := .objectPrototype, props := [(lit "user", .ref 1)], hidden := [] } ]

/-- The heap of `{ item }` with `item = Object.defineProperty({ a: 1 },
"secret", { value: 2, writable: true })`, a property that is not enumerable
(as the `length` of an array is): `item` at address 0, the root at 1. -/
def hiddenHeap : Heap :=
  [ { proto := .objectPrototype, props := [(lit "a", .num (.fin 1))],
      hidden := [(lit "secret", .num (.fin 2))] },
    { proto := .objectPrototype, props := [(lit "item", .ref 0)], hidden := [] } ]

/-- The heap of the empty state `{}`. -/
def emptyStateHeap : Heap :=
  [ { proto := .objectPrototype, props := [], hidden := [] } ]

end ES2018

/-! ## The example harness of the specification -/

namespace Harness

/-- Modelled from the spec: the `status` of an ExecutionResult (section 3),
"one of {Passed, Failed, Errored}".  The repository holds no harness code. -/
inductive Status where
  | Passed
  | Failed
  | Errored
deriving DecidableEq

/-- Modelled from the spec: the error taxonomy of section 7.  The repository
holds no harness code. -/
inductive HarnessError where
  | DuplicateTopicError
  | RuntimeError (message : JSString)
  | Timeout
  | InvocationError
deriving DecidableEq

/-- Modelled from the spec: "exact sequence equality (same length, same lines,
same order)" of section 4.3, line by line; equality of lines is "line-exact
(no normalization of whitespace or numeric formatting)".  The repository holds
no harness code. -/
def sameSequence : List JSString → List JSString → Bool
  | [], [] => true
  | line :: observed, expectedLine :: expected =>
    line == expectedLine && sameSequence observed expected
  | _, _ => false

/-- Modelled from the spec: `Comparator.compare(observed, expected)` of section
4.3, which the repository does not hold: "if `expected` is empty, always
passes ... Otherwise requires exact sequence equality (same length, same lines,
same order); any mismatch is Failed, not Errored." -/
def Comparator.compare (observed expected : List JSString) : Status :=
  if expected.isEmpty then .Passed
  else if sameSequence observed expected then .Passed
  else .Failed

/-- Modelled from the spec: the Example record of section 3, which the
repository does not hold.  The `procedure` is "a zero-argument operation
producing a sequence of observable outputs ... may fail": here the lines it
emits and the message of its failure, if any. -/
structure Example where
  edition : JSString
  topic : JSString
  procedure : Unit → List JSString × Option JSString
  expectedOutputs : List JSString

/-- Modelled from the spec: the Registry of section 4.1, which the repository
does not hold: "holds an ordered collection of `Example` records". -/
structure Registry where
  examples : List Example

namespace Registry

/-- Modelled from the spec: a Registry before any registration (the repository
holds no harness code). -/
def empty : Registry := { examples := [] }

/-- Modelled from the spec: `all()` of section 4.1, the "sequence of Examples
in registration order" (the repository holds no harness code). -/
def all (registry : Registry) : List Example := registry.examples

/-- Modelled from the spec: the size of the Registry named in section 8 (the
repository holds no harness code). -/
def size (registry : Registry) : Nat := registry.examples.length

/-- Modelled from the spec: whether "`(edition, topic)` [is] already present"
(section 4.1; the repository holds no harness code). -/
def present (registry : Registry) (edition topic : JSString) : Bool :=
  registry.examples.any fun e => e.edition == edition && e.topic == topic

/-- Modelled from the spec: `register(example)` of section 4.1, which the
repository does not hold: "fails with `DuplicateTopicError` if
`(edition, topic)` already present; otherwise appends, preserving registration
order as iteration order".  The result is the completion and the Registry
after the call. -/
def register (registry : Registry) (ex : Example) : Except HarnessError Unit × Registry :=
  if registry.present ex.edition ex.topic then
    (.error .DuplicateTopicError, registry)
  else
    (.ok (), { examples := registry.examples ++ [ex] })

/-- Modelled from the spec: the registration of a sequence of examples one
after the other, stopping at the first failure, which is "fatal to startup"
(section 7; the repository holds no harness code). -/
def registerAll (registry : Registry) : List Example → Except HarnessError Unit × Registry
  | [] => (.ok (), registry)
  | ex :: rest =>
    match registry.register ex with
    | (.ok (), registry1) => registerAll registry1 rest
    | (.error e, registry1) => (.error e, registry1)

end Registry

end Harness

/-! # Theorems -/

namespace ES2016

/-- C1: on a freshly constructed GameScore, after `addBonusItem("powerup")`
(which succeeds) and `applyBonus()`, the multiplier is still 1 (squaring 1
gives 1), so `calculateScore(5)` evaluates to 100, not to the 3200 announced by
the expected-output comment. -/
theorem game_calculateScore_five :
    (GameScore.new.addBonusItem (lit "powerup")).1 = true ∧
      game.multiplier = 1 ∧
      game.calculateScore 5 = 100 ∧
      game.calculateScore 5 ≠ 3200 := by
  decide

end ES2016

namespace ES2020

/-- C2: `larger = maxSafeInt + 1000n` evaluates to 9007199254741991, which is
not the 9007199254740992000 announced by the expected-output comment. -/
theorem larger_value :
    larger = 9007199254741991 ∧ larger ≠ 9007199254740992000 := by
  decide

end ES2020

/-! ## Regular-expression matching -/

namespace RegExp

theorem fullMatch_nil (r : RegExp) : fullMatch r [] = nullable r := by
  cases r <;> rfl

theorem fullMatch_none (s : JSString) : fullMatch none s = false := by
  induction s with
  | nil => rfl
  | cons c cs ih => simpa [fullMatch, deriv] using ih

theorem fullMatch_eps_cons (c : Nat) (cs : JSString) : fullMatch eps (c :: cs) = false := by
  simp [fullMatch, deriv, fullMatch_none]

theorem fullMatch_alt (a b : RegExp) (s : JSString) :
    fullMatch (alt a b) s = (fullMatch a s || fullMatch b s) := by
  induction s generalizing a b with
  | nil => rfl
  | cons c cs ih => simp [fullMatch, deriv, ih]

theorem fullMatch_seq_none (b : RegExp) (s : JSString) : fullMatch (seq none b) s = false := by
  induction s with
  | nil => rfl
  | cons c cs ih => simpa [fullMatch, deriv, nullable] using ih

theorem fullMatch_seq_eps (b : RegExp) (s : JSString) :
    fullMatch (seq eps b) s = fullMatch b s := by
  cases s with
  | nil => simp [fullMatch, nullable]
  | cons c cs => simp [fullMatch, deriv, nullable, fullMatch_alt, fullMatch_seq_none]

theorem fullMatch_seq_cls_nil (p : Nat → Bool) (b : RegExp) :
    fullMatch (seq (cls p) b) [] = false := by
  simp [fullMatch, nullable]

theorem fullMatch_seq_cls_cons (p : Nat → Bool) (b : RegExp) (c : Nat) (cs : JSString) :
    fullMatch (seq (cls p) b) (c :: cs) = (p c && fullMatch b cs) := by
  by_cases h : p c = true <;>
    simp [fullMatch, deriv, nullable, h, fullMatch_seq_eps, fullMatch_seq_none]

/-- A sequence matches exactly the concatenations of a match of each part. -/
theorem fullMatch_seq (a b : RegExp) (s : JSString) :
    fullMatch (seq a b) s = true ↔
      ∃ t u, s = t ++ u ∧ fullMatch a t = true ∧ fullMatch b u = true := by
  induction s generalizing a b with
  | nil =>
    simp only [fullMatch, nullable, Bool.and_eq_true]
    constructor
    · rintro ⟨ha, hb⟩
      exact ⟨[], [], rfl, ha, hb⟩
    · rintro ⟨t, u, h, ha, hb⟩
      obtain ⟨rfl, rfl⟩ := List.append_eq_nil.1 h.symm
      exact ⟨ha, hb⟩
  | cons c cs ih =>
    by_cases hn : nullable a = true
    · simp only [fullMatch, deriv, hn, if_true, fullMatch_alt, Bool.or_eq_true, ih]
      constructor
      · rintro (⟨t, u, rfl, ha, hb⟩ | hb)
        · exact ⟨c :: t, u, rfl, ha, hb⟩
        · exact ⟨[], c :: cs, rfl, hn, hb⟩
      · rintro ⟨t, u, h, ha, hb⟩
        cases t with
        | nil =>
          right
          simp only [List.nil_append] at h
          subst h
          exact hb
        | cons d t =>
          left
          simp only [List.cons_append, List.cons.injEq] at h
          obtain ⟨rfl, rfl⟩ := h
          exact ⟨t, u, rfl, ha, hb⟩
    · have hn' : nullable a = false := by simpa using hn
      simp only [fullMatch, deriv, hn', Bool.false_eq_true, if_false, ih]
      constructor
      · rintro ⟨t, u, rfl, ha, hb⟩
        exact ⟨c :: t, u, rfl, ha, hb⟩
      · rintro ⟨t, u, h, ha, hb⟩
        cases t with
        | nil => exact absurd ha hn
        | cons d t =>
          simp only [List.cons_append, List.cons.injEq] at h
          obtain ⟨rfl, rfl⟩ := h
          exact ⟨t, u, rfl, ha, hb⟩

theorem fullMatch_seq_assoc (a b c : RegExp) (s : JSString) :
    fullMatch (seq (seq a b) c) s = fullMatch (seq a (seq b c)) s := by
  rw [Bool.eq_iff_iff, fullMatch_seq, fullMatch_seq]
  constructor
  · rintro ⟨t, u, rfl, hab, hc⟩
    obtain ⟨t1, t2, rfl, ha, hb⟩ := (fullMatch_seq a b t).1 hab
    exact ⟨t1, t2 ++ u, by simp, ha, (fullMatch_seq b c _).2 ⟨t2, u, rfl, hb, hc⟩⟩
  · rintro ⟨t, u, rfl, ha, hbc⟩
    obtain ⟨u1, u2, rfl, hb, hc⟩ := (fullMatch_seq b c u).1 hbc
    exact ⟨t ++ u1, u2, by simp, (fullMatch_seq a b _).2 ⟨t, u1, rfl, ha, hb⟩, hc⟩

theorem nullable_of_matches_nil (r : RegExp) (s : JSString) (h : Matches r s) :
    s = [] → nullable r = true := by
  induction h with
  | eps => intro _; rfl
  | cls p c _ => intro h; exact absurd h (by simp)
  | seq a b s t _ _ iha ihb =>
    intro h
    obtain ⟨hs, ht⟩ := List.append_eq_nil.1 h
    simp [nullable, iha hs, ihb ht]
  | altLeft a b s _ ih => intro h; simp [nullable, ih h]
  | altRight a b s _ ih => intro h; simp [nullable, ih h]
  | starNil a => intro _; rfl
  | starCons a s t _ _ _ _ => intro _; rfl

theorem matches_nil_of_nullable (r : RegExp) (h : nullable r = true) : Matches r [] := by
  induction r with
  | none => simp [nullable] at h
  | eps => exact Matches.eps
  | cls p => simp [nullable] at h
  | seq a b iha ihb =>
    simp only [nullable, Bool.and_eq_true] at h
    exact Matches.seq a b [] [] (iha h.1) (ihb h.2)
  | alt a b iha ihb =>
    simp only [nullable, Bool.or_eq_true] at h
    rcases h with h | h
    · exact Matches.altLeft a b [] (iha h)
    · exact Matches.altRight a b [] (ihb h)
  | star a _ => exact Matches.starNil a

/-- Soundness of the derivative: what follows `c` in the derivative follows
`c` in the pattern. -/
theorem matches_cons_of_deriv (r : RegExp) (c : Nat) :
    ∀ s, Matches (deriv r c) s → Matches r (c :: s) := by
  induction r with
  | none => intro s h; cases h
  | eps => intro s h; cases h
  | cls p =>
    intro s h
    by_cases hp : p c = true
    · simp only [deriv, hp, if_true] at h
      cases h
      exact Matches.cls p c hp
    · simp only [deriv, hp] at h
      cases h
  | seq a b iha ihb =>
    intro s h
    have hseq : ∀ s, Matches (seq (deriv a c) b) s → Matches (seq a b) (c :: s) := by
      intro s h
      cases h with
      | seq _ _ u v hu hv => exact Matches.seq a b (c :: u) v (iha u hu) hv
    by_cases hn : nullable a = true
    · simp only [deriv, hn, if_true] at h
      cases h with
      | altLeft _ _ _ h => exact hseq s h
      | altRight _ _ _ h =>
        exact Matches.seq a b [] (c :: s) (matches_nil_of_nullable a hn) (ihb s h)
    · simp only [deriv, hn] at h
      exact hseq s h
  | alt a b iha ihb =>
    intro s h
    cases h with
    | altLeft _ _ _ h => exact Matches.altLeft a b _ (iha s h)
    | altRight _ _ _ h => exact Matches.altRight a b _ (ihb s h)
  | star a iha =>
    intro s h
    cases h with
    | seq _ _ u v hu hv => exact Matches.starCons a (c :: u) v (iha u hu) hv

/-- Completeness of the derivative. -/
theorem deriv_of_matches_cons (r : RegExp) (t : JSString) (h : Matches r t) :
    ∀ c s, t = c :: s → Matches (deriv r c) s := by
  induction h with
  | eps => intro c s h; exact absurd h (by simp)
  | cls p d hp =>
    intro c s h
    simp only [List.cons.injEq] at h
    obtain ⟨rfl, rfl⟩ := h
    simp only [deriv, hp, if_true]
    exact Matches.eps
  | seq a b u v hu hv iha ihb =>
    intro c s h
    cases u with
    | nil =>
      have hn : nullable a = true := nullable_of_matches_nil a [] hu rfl
      simp only [deriv, hn, if_true]
      exact Matches.altRight _ _ _ (ihb c s h)
    | cons d u =>
      simp only [List.cons_append, List.cons.injEq] at h
      obtain ⟨rfl, rfl⟩ := h
      have hseq : Matches (seq (deriv a d) b) (u ++ v) :=
        Matches.seq _ _ _ _ (iha d u rfl) hv
      by_cases hn : nullable a = true
      · simp only [deriv, hn, if_true]
        exact Matches.altLeft _ _ _ hseq
      · simp only [deriv, hn]
        exact hseq
  | altLeft a b s _ ih => intro c s' h; exact Matches.altLeft _ _ _ (ih c s' h)
  | altRight a b s _ ih => intro c s' h; exact Matches.altRight _ _ _ (ih c s' h)
  | starNil a => intro c s h; exact absurd h (by simp)
  | starCons a u v hu hv iha ihb =>
    intro c s h
    cases u with
    | nil => exact ihb c s h
    | cons d u =>
      simp only [List.cons_append, List.cons.injEq] at h
      obtain ⟨rfl, rfl⟩ := h
      exact Matches.seq _ _ _ _ (iha d u rfl) hv

/-- The matcher decides the language of the pattern. -/
theorem fullMatch_iff_matches (r : RegExp) (s : JSString) :
    fullMatch r s = true ↔ Matches r s := by
  induction s generalizing r with
  | nil =>
    exact ⟨matches_nil_of_nullable r, fun h => nullable_of_matches_nil r [] h rfl⟩
  | cons c cs ih =>
    simp only [fullMatch]
    rw [ih]
    exact ⟨matches_cons_of_deriv r c cs, fun h => deriv_of_matches_cons r _ h c cs rfl⟩

end RegExp

theorem split_ne_nil (s : JSString) (sep : Nat) : split s sep ≠ [] := by
  induction s with
  | nil => simp [split]
  | cons c cs ih =>
    unfold split
    split_ifs
    · simp
    · cases hsp : split cs sep with
      | nil => exact absurd hsp ih
      | cons part parts => simp

namespace ES3

theorem modernValidatePhone_eq_phoneForm (phone : JSString) :
    modernValidatePhone phone = phoneForm phone := by
  rcases phone with _ | ⟨d0, _ | ⟨d1, _ | ⟨d2, _ | ⟨h3, _ | ⟨d4, _ | ⟨d5, _ | ⟨d6, _ |
    ⟨h7, _ | ⟨d8, _ | ⟨d9, _ | ⟨d10, _ | ⟨d11, _ | ⟨x, rest⟩⟩⟩⟩⟩⟩⟩⟩⟩⟩⟩⟩⟩ <;>
  simp [modernValidatePhone, RegExp.test, phonePattern, RegExp.rep, RegExp.chr, phoneForm,
    RegExp.fullMatch_seq_assoc, RegExp.fullMatch_seq_eps, RegExp.fullMatch_seq_cls_cons,
    RegExp.fullMatch_seq_cls_nil, RegExp.fullMatch_eps_cons, RegExp.fullMatch_nil,
    RegExp.nullable]
  rw [Bool.eq_iff_iff]
  simp [and_assoc]

theorem lit_zero : lit "0" = [48] := by decide

theorem lit_nine : lit "9" = [57] := by decide

theorem lit_hyphen : lit "-" = [45] := by decide

theorem oldValidatePhone_eq_phoneForm (phone : JSString) :
    oldValidatePhone phone = phoneForm phone := by
  rcases phone with _ | ⟨d0, _ | ⟨d1, _ | ⟨d2, _ | ⟨h3, _ | ⟨d4, _ | ⟨d5, _ | ⟨d6, _ |
    ⟨h7, _ | ⟨d8, _ | ⟨d9, _ | ⟨d10, _ | ⟨d11, _ | ⟨x, rest⟩⟩⟩⟩⟩⟩⟩⟩⟩⟩⟩⟩⟩ <;>
  simp [oldValidatePhone, phoneForm]
  simp [oldValidatePhone.loop, charAt, strLt, strGt, lit_zero, lit_nine, lit_hyphen, isDigit]
  rw [Bool.eq_iff_iff]
  simp only [Bool.and_eq_true, Bool.not_eq_true', decide_eq_true_eq, decide_eq_false_iff_not,
    beq_iff_eq]
  omega

/-- C3: for every string `phone`, `oldValidatePhone` and `modernValidatePhone`
return the same boolean, and that boolean is true exactly when `phone` is
twelve code units of the form `ddd-ddd-dddd` with each `d` an ASCII digit. -/
theorem validatePhone_old_eq_modern (phone : JSString) :
    oldValidatePhone phone = modernValidatePhone phone ∧
      (oldValidatePhone phone = true ↔ phoneForm phone = true) ∧
      (modernValidatePhone phone = true ↔ phoneForm phone = true) := by
  rw [oldValidatePhone_eq_phoneForm, modernValidatePhone_eq_phoneForm]
  exact ⟨rfl, Iff.rfl, Iff.rfl⟩

/-- The two usage lines of the file: `modernValidatePhone("123-456-7890")` is
true and `modernValidatePhone("invalid")` is false, and the old validator
agrees. -/
theorem validatePhone_samples :
    modernValidatePhone (lit "123-456-7890") = true ∧
      modernValidatePhone (lit "invalid") = false ∧
      oldValidatePhone (lit "123-456-7890") = true ∧
      oldValidatePhone (lit "invalid") = false := by
  decide

/-- C4: on the title `a-b` the two slug functions disagree, whatever the
Unicode case tables are: `oldCreateSlug` drops the hyphen and returns `ab`,
`modernCreateSlug` keeps it and returns `a-b`. -/
theorem createSlug_hyphen_differs (unicodeLower : JSString → JSString) :
    oldCreateSlug (lit "a-b") = lit "ab" ∧
      modernCreateSlug unicodeLower (lit "a-b") = lit "a-b" ∧
      modernCreateSlug unicodeLower (lit "a-b") ≠ oldCreateSlug (lit "a-b") := by
  refine ⟨by decide, rfl, ?_⟩
  have h1 : modernCreateSlug unicodeLower (lit "a-b") = lit "a-b" := rfl
  have h2 : oldCreateSlug (lit "a-b") = lit "ab" := by decide
  rw [h1, h2]
  decide

theorem lit_space : lit " " = [32] := by decide

theorem lit_lower_a : lit "a" = [97] := by decide

theorem lit_lower_z : lit "z" = [122] := by decide

theorem lit_upper_a : lit "A" = [65] := by decide

theorem lit_upper_z : lit "Z" = [90] := by decide

theorem lit_empty : lit "" = [] := by decide

theorem strGe_unit (c d : Nat) : strGe [c] [d] = decide (d ≤ c) := by
  rw [Bool.eq_iff_iff]
  simp only [strGe, strLt]
  split_ifs <;> simp <;> omega

theorem strLe_unit (c d : Nat) : strLe [c] [d] = decide (c ≤ d) := by
  rw [Bool.eq_iff_iff]
  simp only [strLe, strLt]
  split_ifs <;> simp <;> omega

/-- One iteration of the loop of `oldCreateSlug` appends `slugOfUnit c`. -/
theorem oldCreateSlug_loop_step (title : JSString) (fuel i : Nat) (result : JSString) (c : Nat)
    (hc : title[i]? = some c) :
    oldCreateSlug.loop title (fuel + 1) i result =
      oldCreateSlug.loop title fuel (i + 1) (result ++ slugOfUnit c) := by
  have hchar : charAt title i = [c] := by simp [charAt, hc]
  simp only [oldCreateSlug.loop, hchar, lit_space, lit_lower_a, lit_lower_z, lit_zero, lit_nine,
    lit_upper_a, lit_upper_z, lit_hyphen, strGe_unit, strLe_unit, charCodeAt, fromCharCode, slugOfUnit,
    List.cons.injEq, and_true, Bool.or_eq_true, Bool.and_eq_true, decide_eq_true_eq]
  by_cases h32 : c = 32
  · simp [h32]
  · by_cases hl : (97 ≤ c ∧ c ≤ 122) ∨ (48 ≤ c ∧ c ≤ 57)
    · simp [h32, hl]
    · by_cases hu : 65 ≤ c ∧ c ≤ 90
      · simp [h32, hl, hu]
      · simp [h32, hl, hu]

theorem oldCreateSlug_loop_eq (title : JSString) :
    ∀ (fuel i : Nat) (result : JSString), i + fuel = title.length →
      oldCreateSlug.loop title fuel i result = result ++ (title.drop i).flatMap slugOfUnit := by
  intro fuel
  induction fuel with
  | zero =>
    intro i result h
    have hi : title.length ≤ i := by omega
    simp [oldCreateSlug.loop, List.drop_eq_nil_of_le hi]
  | succ fuel ih =>
    intro i result h
    have hi : i < title.length := by omega
    rw [oldCreateSlug_loop_step title fuel i result title[i] (List.getElem?_eq_getElem hi),
      ih (i + 1) _ (by omega), List.drop_eq_getElem_cons hi]
    simp only [List.flatMap_cons, List.append_assoc]

theorem oldCreateSlug_eq_flatMap (title : JSString) :
    oldCreateSlug title = title.flatMap slugOfUnit := by
  simp [oldCreateSlug, oldCreateSlug_loop_eq title title.length 0 [] (by simp)]

theorem join_split_space (s : JSString) :
    join (split s 32) (lit "-") = s.map fun c => if c = 32 then 45 else c := by
  rw [lit_hyphen]
  induction s with
  | nil => simp [split, join]
  | cons c cs ih =>
    unfold split
    cases hsp : split cs 32 with
    | nil => exact absurd hsp (split_ne_nil cs 32)
    | cons part parts =>
      rw [hsp] at ih
      by_cases hc : c = 32
      · simp only [hc, if_true, List.map_cons]
        simp [join, ih]
      · simp only [hc, if_false, List.map_cons]
        cases parts with
        | nil =>
          simp only [join] at ih ⊢
          rw [ih]
        | cons p2 ps =>
          simp only [join] at ih ⊢
          simp only [List.cons_append, ih]

/-- What the modern pipeline makes of one ASCII code unit other than the
hyphen is what one iteration of the old loop appends. -/
theorem modern_unit_eq_slugOfUnit (c : Nat) (hc : c ≠ 45) :
    (if notSlugChar
        ((fun c => if c = 32 then 45 else c) ((fun c => if 65 ≤ c ∧ c ≤ 90 then c + 32 else c) c))
      then lit "" else
        [(fun c => if c = 32 then 45 else c) ((fun c => if 65 ≤ c ∧ c ≤ 90 then c + 32 else c) c)])
      = slugOfUnit c := by
  simp only [notSlugChar, slugOfUnit, lit_empty]
  by_cases h32 : c = 32
  · subst h32
    simp
  · by_cases hu : 65 ≤ c ∧ c ≤ 90
    · have h1 : ¬ c + 32 = 32 := by omega
      have h2 : 97 ≤ c + 32 ∧ c + 32 ≤ 122 := by omega
      have h3 : ¬ ((97 ≤ c ∧ c ≤ 122) ∨ (48 ≤ c ∧ c ≤ 57)) := by omega
      have h4 : (c + 32) % 65536 = c + 32 := by omega
      simp [hu, h1, h2, h3, h4, h32]
    · by_cases hl : (97 ≤ c ∧ c ≤ 122) ∨ (48 ≤ c ∧ c ≤ 57)
      · rcases hl with hl | hl <;> simp [hu, h32, hl]
      · have h5 : ¬ (97 ≤ c ∧ c ≤ 122) := fun h => hl (Or.inl h)
        have h6 : ¬ (48 ≤ c ∧ c ≤ 57) := fun h => hl (Or.inr h)
        simp [hu, h32, hl, h5, h6, hc]

/-- On a title of ASCII code units without a hyphen the two slug functions
agree. -/
theorem createSlug_agree_of_ascii_no_hyphen (unicodeLower : JSString → JSString)
    (title : JSString) (hascii : ∀ c ∈ title, c < 128) (hhyp : ∀ c ∈ title, c ≠ 45) :
    modernCreateSlug unicodeLower title = oldCreateSlug title := by
  have hall : title.all (fun c => decide (c < 128)) = true := by
    simpa [List.all_eq_true] using hascii
  rw [oldCreateSlug_eq_flatMap]
  simp only [modernCreateSlug, toLowerCase, hall, if_true, join_split_space, replaceAll]
  clear hall hascii
  induction title with
  | nil => rfl
  | cons c cs ih =>
    have hc : c ≠ 45 := hhyp c (by simp)
    have hcs : ∀ c ∈ cs, c ≠ 45 := fun x hx => hhyp x (List.mem_cons_of_mem _ hx)
    simp only [List.map_cons, List.flatMap_cons, ih hcs]
    rw [modern_unit_eq_slugOfUnit c hc]

theorem createSlug_agree_sample (unicodeLower : JSString → JSString) :
    modernCreateSlug unicodeLower (lit "Hello World 123") = oldCreateSlug (lit "Hello World 123") :=
  createSlug_agree_of_ascii_no_hyphen unicodeLower (lit "Hello World 123") (by decide) (by decide)

/-- The outcome of `validateAge` on an argument whose conversion to a string
returns `s`, by the number `parseInt` reads. -/
theorem validateAge_converts (s : JSString) :
    FormValidator.validateAge (.converts s) = .ok
      (if JSNum.isNaN (parseInt s) then ⟨false, .str (lit "Age must be a number")⟩
       else if JSNum.lt (parseInt s) (.fin 0) then ⟨false, .str (lit "Age cannot be negative")⟩
       else if JSNum.lt (parseInt s) (.fin 13) then
         ⟨false, .str (lit "Must be at least 13 years old")⟩
       else if JSNum.gt (parseInt s) (.fin 120) then ⟨false, .str (lit "Invalid age")⟩
       else ⟨true, .str (lit "Valid age")⟩) := by
  simp only [FormValidator.validateAge, jsTry]
  split_ifs <;> rfl

/-- The outcome of `validateAge` on an argument whose conversion to a string
raises: the message of the raised value if it can be read, otherwise what the
read raises. -/
theorem validateAge_raises (thrown : Thrown) :
    FormValidator.validateAge (.raises thrown) =
      match thrown.readMessage with
      | .ok message => .ok ⟨false, message⟩
      | .error raised => .error raised := by
  simp only [FormValidator.validateAge, jsTry]

theorem parseInt_samples :
    parseInt (lit "25") = .fin 25 ∧ parseInt (lit "  -5 years") = .fin (-5) ∧
      parseInt (lit "abc") = .nan ∧ parseInt (lit "") = .nan ∧
      parseInt (lit "9007199254740993") = .fin 9007199254740992 := by
  decide

set_option maxRecDepth 100000 in
/-- A run of 400 digits is beyond the largest double: `parseInt` reads it as
`Infinity`, and as `-Infinity` after a minus sign. -/
theorem parseInt_overflow :
    parseInt (List.replicate 400 57) = .posInf ∧
      parseInt (45 :: List.replicate 400 57) = .negInf := by
  decide

/-- The case analysis of `validateAge` on the number `n` read by `parseInt`. -/
theorem validateAge_cases (n : JSNum) :
    ∃ r : ValidationResult,
      r = (if JSNum.isNaN n then ⟨false, .str (lit "Age must be a number")⟩
        else if JSNum.lt n (.fin 0) then ⟨false, .str (lit "Age cannot be negative")⟩
        else if JSNum.lt n (.fin 13) then ⟨false, .str (lit "Must be at least 13 years old")⟩
        else if JSNum.gt n (.fin 120) then ⟨false, .str (lit "Invalid age")⟩
        else ⟨true, .str (lit "Valid age")⟩) ∧
      (r = ⟨true, .str (lit "Valid age")⟩ ↔
        JSNum.le (.fin 13) n = true ∧ JSNum.le n (.fin 120) = true) ∧
      (r.valid = true ↔ JSNum.le (.fin 13) n = true ∧ JSNum.le n (.fin 120) = true) ∧
      (JSNum.isNaN n = true → r = ⟨false, .str (lit "Age must be a number")⟩) ∧
      (JSNum.lt n (.fin 0) = true → r = ⟨false, .str (lit "Age cannot be negative")⟩) ∧
      (JSNum.le (.fin 0) n = true → JSNum.lt n (.fin 13) = true →
        r = ⟨false, .str (lit "Must be at least 13 years old")⟩) ∧
      (JSNum.gt n (.fin 120) = true → r = ⟨false, .str (lit "Invalid age")⟩) := by
  refine ⟨_, rfl, ?_⟩
  cases n with
  | nan => simp [JSNum.isNaN, JSNum.lt, JSNum.gt, JSNum.le]
  | negInf => simp [JSNum.isNaN, JSNum.lt, JSNum.gt, JSNum.le]
  | posInf => simp [JSNum.isNaN, JSNum.lt, JSNum.gt, JSNum.le]
  | fin q =>
    simp only [JSNum.isNaN, JSNum.lt, JSNum.gt, JSNum.le, Bool.false_eq_true, if_false,
      decide_eq_true_eq, Bool.not_false, Bool.true_and, Bool.not_eq_true', decide_eq_false_iff_not,
      not_lt, false_implies, true_and]
    split_ifs with h1 h2 h3 <;> refine ⟨?_, ?_, ?_, ?_, ?_⟩ <;>
      first
        | exact ⟨fun _ => ⟨by linarith, by linarith⟩, fun _ => rfl⟩
        | exact ⟨fun h' => by simp at h', fun h' => by exfalso; linarith [h'.1, h'.2]⟩
        | (intros; rfl)
        | (intros; exfalso; linarith)

/-- C6 (amended): `validateAge` raises exactly when the conversion of its
argument to a string throws a value whose `message` cannot be read.  On an
argument that converts to a string, with `n = parseInt(age, 10)`, it returns
`{valid: true, message: 'Valid age'}` exactly when `13 <= n <= 120`, and
otherwise `valid: false` with the message 'Age must be a number' when `n` is
NaN, 'Age cannot be negative' when `n < 0`, 'Must be at least 13 years old'
when `0 <= n < 13`, and 'Invalid age' when `n > 120`.  When the conversion
throws a value whose `message` reads `m`, it returns `{valid: false,
message: m}`. -/
theorem validateAge_outcome (s : JSString) (thrown : Thrown) :
    (∃ r, FormValidator.validateAge (.converts s) = .ok r ∧
      (r = ⟨true, .str (lit "Valid age")⟩ ↔
        JSNum.le (.fin 13) (parseInt s) = true ∧ JSNum.le (parseInt s) (.fin 120) = true) ∧
      (r.valid = true ↔
        JSNum.le (.fin 13) (parseInt s) = true ∧ JSNum.le (parseInt s) (.fin 120) = true) ∧
      (JSNum.isNaN (parseInt s) = true → r = ⟨false, .str (lit "Age must be a number")⟩) ∧
      (JSNum.lt (parseInt s) (.fin 0) = true →
        r = ⟨false, .str (lit "Age cannot be negative")⟩) ∧
      (JSNum.le (.fin 0) (parseInt s) = true → JSNum.lt (parseInt s) (.fin 13) = true →
        r = ⟨false, .str (lit "Must be at least 13 years old")⟩) ∧
      (JSNum.gt (parseInt s) (.fin 120) = true → r = ⟨false, .str (lit "Invalid age")⟩) ∧
      (∀ q : ℚ, parseInt s = .fin q → (r.valid = true ↔ 13 ≤ q ∧ q ≤ 120))) ∧
    (∀ message, thrown.readMessage = .ok message →
      FormValidator.validateAge (.raises thrown) = .ok ⟨false, message⟩) ∧
    (∀ raised, thrown.readMessage = .error raised →
      FormValidator.validateAge (.raises thrown) = .error raised) ∧
    (∀ age, (∃ raised, FormValidator.validateAge age = .error raised) ↔
      ∃ t raised, age = .raises t ∧ t.readMessage = .error raised) := by
  refine ⟨?_, ?_, ?_, ?_⟩
  · obtain ⟨r, hr, h1, h2, h3, h4, h5, h6⟩ := validateAge_cases (parseInt s)
    refine ⟨r, ?_, h1, h2, h3, h4, h5, h6, ?_⟩
    · rw [validateAge_converts, hr]
    · intro q hq
      rw [h2, hq]
      simp [JSNum.le, JSNum.lt, JSNum.isNaN]
  · intro message h
    rw [validateAge_raises, h]
  · intro raised h
    rw [validateAge_raises, h]
  · intro age
    cases age with
    | converts s' =>
      rw [validateAge_converts]
      simp
    | raises t =>
      rw [validateAge_raises]
      cases h : t.readMessage with
      | ok message => simp [h]
      | error raised => simp [h]

/-- Counterexample to C6 as stated: for an argument whose `toString` throws
`null` (`{ toString() { throw null } }`), the conversion inside `parseInt`
raises, the `catch` block reads `error.message` of `null`, and that read
raises a TypeError out of `validateAge`.  For a symbol, whose conversion
raises a TypeError object, the method returns. -/
theorem validateAge_raises_on_thrown_null :
    FormValidator.validateAge (.raises .null) =
        .error (.error (.typeError (lit "Cannot read properties of null"))) ∧
      FormValidator.validateAge
          (.raises (.error (.typeError (lit "Cannot convert a Symbol value to a string")))) =
        .ok ⟨false, .str (lit "Cannot convert a Symbol value to a string")⟩ := by
  constructor <;> rfl

end ES3

namespace ES2020

theorem nullish_eq (lhs rhs : JSValue) :
    nullish lhs rhs = if lhs = .undefined ∨ lhs = .null then rhs else lhs := by
  cases lhs <;> simp [nullish]

/-- C5: for every object `formData`, each of `name`, `age`, `count` and
`enabled` of the result is the supplied value unless that value is `null` or
`undefined`, in which case it is the default 'Guest', 18, 0 and true
respectively; in particular a supplied count of 0, enabled of false, or
empty-string name is kept. -/
theorem processFormData_keeps_supplied (formData : JSObject) :
    (getProp (processFormData formData) (lit "name") =
        if getProp formData (lit "name") = .undefined ∨ getProp formData (lit "name") = .null
        then .str (lit "Guest") else getProp formData (lit "name")) ∧
      (getProp (processFormData formData) (lit "age") =
        if getProp formData (lit "age") = .undefined ∨ getProp formData (lit "age") = .null
        then .num (.fin 18) else getProp formData (lit "age")) ∧
      (getProp (processFormData formData) (lit "count") =
        if getProp formData (lit "count") = .undefined ∨ getProp formData (lit "count") = .null
        then .num (.fin 0) else getProp formData (lit "count")) ∧
      (getProp (processFormData formData) (lit "enabled") =
        if getProp formData (lit "enabled") = .undefined ∨
            getProp formData (lit "enabled") = .null
        then .bool true else getProp formData (lit "enabled")) ∧
      (getProp formData (lit "count") = .num (.fin 0) →
        getProp (processFormData formData) (lit "count") = .num (.fin 0)) ∧
      (getProp formData (lit "enabled") = .bool false →
        getProp (processFormData formData) (lit "enabled") = .bool false) ∧
      (getProp formData (lit "name") = .str (lit "") →
        getProp (processFormData formData) (lit "name") = .str (lit "")) := by
  have hn : getProp (processFormData formData) (lit "name") =
      nullish (getProp formData (lit "name")) (.str (lit "Guest")) := rfl
  have ha : getProp (processFormData formData) (lit "age") =
      nullish (getProp formData (lit "age")) (.num (.fin 18)) := rfl
  have hc : getProp (processFormData formData) (lit "count") =
      nullish (getProp formData (lit "count")) (.num (.fin 0)) := rfl
  have he : getProp (processFormData formData) (lit "enabled") =
      nullish (getProp formData (lit "enabled")) (.bool true) := rfl
  rw [hn, ha, hc, he]
  refine ⟨nullish_eq _ _, nullish_eq _ _, nullish_eq _ _, nullish_eq _ _, ?_, ?_, ?_⟩ <;>
    intro h <;> rw [h] <;> rfl

end ES2020

namespace ES5

/-- C9: in exact rational arithmetic, assigning `temperature.fahrenheit = v`
and then reading `temperature.fahrenheit` returns `v`; with `celsius = 20` the
getter returns 68, and after assigning `fahrenheit = 86` celsius is 30. -/
theorem fahrenheit_roundtrip (t : Temperature) (v : ℚ) :
    (t.setFahrenheit v).celsius = (v - 32) * 5 / 9 ∧
      (t.setFahrenheit v).fahrenheit = v ∧
      temperature.fahrenheit = 68 ∧
      (temperature.setFahrenheit 86).celsius = 30 := by
  refine ⟨rfl, ?_, ?_, ?_⟩
  · simp only [Temperature.setFahrenheit, Temperature.fahrenheit]
    ring
  · simp only [temperature, Temperature.fahrenheit]
    norm_num
  · simp only [Temperature.setFahrenheit]
    norm_num

/-- C10: for every number `value`, the `age` setter raises
`Error('Invalid age')` exactly when `value < 0` or `value > 150`, and then the
stored age is unchanged; otherwise it completes normally, stores `value`, and
a following read of `user.age` returns `value`. -/
theorem setAge_raises_iff (this : User) (value : JSNum) :
    ((this.setAge value).1 = .error (.error (lit "Invalid age")) ↔
        (JSNum.lt value (.fin 0) = true ∨ JSNum.gt value (.fin 150) = true)) ∧
      ((this.setAge value).1 = .ok () ↔
        ¬(JSNum.lt value (.fin 0) = true ∨ JSNum.gt value (.fin 150) = true)) ∧
      ((JSNum.lt value (.fin 0) = true ∨ JSNum.gt value (.fin 150) = true) →
        (this.setAge value).2 = this) ∧
      (¬(JSNum.lt value (.fin 0) = true ∨ JSNum.gt value (.fin 150) = true) →
        (this.setAge value).2.age = value) ∧
      (∀ q : ℚ, value = .fin q →
        ((this.setAge value).1 = .error (.error (lit "Invalid age")) ↔ (q < 0 ∨ 150 < q))) := by
  by_cases h : JSNum.lt value (.fin 0) = true ∨ JSNum.gt value (.fin 150) = true
  · have hb : (JSNum.lt value (.fin 0) || JSNum.gt value (.fin 150)) = true := by
      simpa using h
    have hs : this.setAge value = (.error (.error (lit "Invalid age")), this) := by
      simp [User.setAge, hb]
    refine ⟨by simp [hs, h], by simp [hs, h], fun _ => by rw [hs], fun h' => absurd h h', ?_⟩
    rintro q rfl
    simpa [hs, JSNum.lt, JSNum.gt] using h
  · have hb : (JSNum.lt value (.fin 0) || JSNum.gt value (.fin 150)) = false := by
      simpa using h
    have hs : this.setAge value = (.ok (), { this with _age := value }) := by
      simp [User.setAge, hb]
    refine ⟨by simp [hs, h], by simp [hs, h], fun h' => absurd h' h, fun _ => by rw [hs]; rfl, ?_⟩
    rintro q rfl
    simpa [hs, JSNum.lt, JSNum.gt] using h

theorem validateField_of_ordinary (errors : List JSString) (field value : JSString)
    (h : objectPrototypeKeys.contains field = false) :
    FormValidator.validateField errors field value =
      .ok (errors ++ (FormValidator.expectedError field value).toList) := by
  unfold FormValidator.validateField FormValidator.expectedError FormValidator.rules
  by_cases hb : trim value = []
  · simp [hb]
  · have hlen : ¬ (trim value).length = 0 := by simpa using hb
    simp only [hlen, hb, if_false]
    have hne : lit "email" ≠ lit "phone" := by decide
    have hmem : field ∉ objectPrototypeKeys := by simpa using h
    by_cases he : field = lit "email"
    · cases ht : RegExp.test emailPattern value <;> simp [he, ht, hne]
    · by_cases hp : field = lit "phone"
      · cases ht : RegExp.test phonePattern value <;> simp [hp, ht, hne.symm]
      · simp [he, hp, hmem]

theorem forEachField_of_ordinary (formData : List (JSString × JSString))
    (h : ∀ p ∈ formData, objectPrototypeKeys.contains p.1 = false) (errors : List JSString) :
    FormValidator.forEachField errors formData =
      .ok (errors ++ formData.filterMap fun p => FormValidator.expectedError p.1 p.2) := by
  induction formData generalizing errors with
  | nil => simp [FormValidator.forEachField]
  | cons p rest ih =>
    obtain ⟨field, value⟩ := p
    have hf : objectPrototypeKeys.contains field = false := h (field, value) (by simp)
    have hrest : ∀ p ∈ rest, objectPrototypeKeys.contains p.1 = false :=
      fun p hp => h p (List.mem_cons_of_mem _ hp)
    simp only [FormValidator.forEachField, validateField_of_ordinary errors field value hf]
    rw [ih hrest]
    cases he : FormValidator.expectedError field value <;> simp [List.filterMap_cons, he]

/-- For a form none of whose field names is inherited from `Object.prototype`,
`validate` returns a report: its errors are, in field order, the expected
message of each offending field, and `isValid` says that there is none. -/
theorem validate_of_ordinary_fields (formData : List (JSString × JSString))
    (h : ∀ p ∈ formData, objectPrototypeKeys.contains p.1 = false) :
    FormValidator.validate formData = .ok
      { isValid := (formData.filterMap fun p => FormValidator.expectedError p.1 p.2).length == 0,
        errors := formData.filterMap fun p => FormValidator.expectedError p.1 p.2 } := by
  simp [FormValidator.validate, forEachField_of_ordinary formData h []]

theorem validate_of_ordinary_fields_form :
    FormValidator.validate form = .ok { isValid := true, errors := [] } :=
  validate_of_ordinary_fields form (by decide)

/-- C7: a form with a field named `constructor` (any name inherited from
`Object.prototype`) holding a non-blank string makes `validate` raise a
TypeError instead of returning a report, because `this.rules[field]` finds the
inherited built-in; the sample `form` validates with no errors. -/
theorem validate_constructor_field_raises :
    FormValidator.validate [(lit "constructor", lit "x")] =
        .error (.typeError (lit "this.rules[field].test is not a function")) ∧
      FormValidator.validate form = .ok { isValid := true, errors := [] } := by
  constructor <;> rfl

end ES5

namespace ES2018
open StateManager

theorem lookup_assignOwn_self (props : List (JSString × Val)) (key : JSString) (v : Val) :
    (assignOwn props key v).lookup key = some v := by
  induction props with
  | nil => simp [assignOwn, List.lookup]
  | cons p rest ih =>
    obtain ⟨k, x⟩ := p
    by_cases hk : k = key
    · simp [assignOwn, hk, List.lookup]
    · have hb : (key == k) = false := by simpa using fun h => hk h.symm
      simp [assignOwn, hk, List.lookup, hb, ih]

theorem lookup_assignOwn_of_ne (props : List (JSString × Val)) (key k' : JSString) (v : Val)
    (h : k' ≠ key) : (assignOwn props key v).lookup k' = props.lookup k' := by
  induction props with
  | nil =>
    have hb : (k' == key) = false := by simpa using h
    simp [assignOwn, List.lookup, hb]
  | cons p rest ih =>
    obtain ⟨k, x⟩ := p
    by_cases hk : k = key
    · subst hk
      have hb : (k' == k) = false := by simpa using h
      simp [assignOwn, List.lookup, hb]
    · by_cases hk' : k' = k
      · subst hk'
        simp [assignOwn, hk, List.lookup]
      · have hb : (k' == k) = false := by simpa using hk'
        simp [assignOwn, hk, List.lookup, hb, ih]

/-- A plain object reads a name from its own properties, and a name it does
not own from `Object.prototype`. -/
theorem get_plain (intrinsics : Intrinsics) (h : Heap) (a : Nat)
    (props : List (JSString × Val)) (key : JSString)
    (ha : h[a]? = some ⟨.objectPrototype, props, []⟩) :
    get intrinsics h (.ref a) key = (props.lookup key).getD (inherited key) := by
  obtain ⟨n, hn⟩ : ∃ n, h.length = n + 1 := by
    cases h with
    | nil => simp at ha
    | cons o t => exact ⟨t.length, rfl⟩
  unfold get
  rw [hn]
  cases hl : props.lookup key with
  | some x => simp [findProp, ha, hl]
  | none =>
    by_cases hk : key = protoKey
    · subst hk
      simp [findProp, ha, hl, inherited, protoOf, List.lookup]
    · by_cases hm : key ∈ objectPrototypeMethods
      · simp [findProp, ha, hl, hk, hm, inherited, List.lookup]
      · simp [findProp, ha, hl, hk, hm, inherited, List.lookup]

/-- On a plain object, assigning to a name other than `__proto__` writes an
own property of that object and nothing else. -/
theorem setProp_plain (intrinsics : Intrinsics) (h : Heap) (a : Nat)
    (props : List (JSString × Val)) (key : JSString) (v : Val)
    (ha : h[a]? = some ⟨.objectPrototype, props, []⟩) (hk : key ≠ protoKey) :
    setProp intrinsics h (.ref a) key v =
      .ok (h.set a ⟨.objectPrototype, assignOwn props key v, []⟩) := by
  obtain ⟨n, hn⟩ : ∃ n, h.length = n + 1 := by
    cases h with
    | nil => simp at ha
    | cons o t => exact ⟨t.length, rfl⟩
  unfold setProp
  simp only [ha]
  rw [hn]
  cases hl : props.lookup key with
  | some x => simp [findProp, ha, hl, assignData]
  | none =>
    by_cases hm : key ∈ objectPrototypeMethods
    · simp [findProp, ha, hl, hk, hm, assignData, List.lookup]
    · simp [findProp, ha, hl, hk, hm, assignData, List.lookup]

theorem get_undefined (intrinsics : Intrinsics) (h : Heap) (key : JSString) :
    get intrinsics h .undefined key = .undefined := by
  simp [get, findProp]

/-- The cell of a plain object. -/
theorem cell_of_isPlainObject (h : Heap) (v : Val) (hv : isPlainObject h v = true) :
    ∃ a, v = .ref a ∧ h[a]? = some ⟨.objectPrototype, ownEnumerable h v, []⟩ := by
  cases v with
  | ref a =>
    refine ⟨a, rfl, ?_⟩
    cases ho : h[a]? with
    | none => simp [isPlainObject, ho] at hv
    | some o =>
      obtain ⟨proto, props, hidden⟩ := o
      simp only [isPlainObject, ho, Bool.and_eq_true, beq_iff_eq, List.isEmpty_iff] at hv
      obtain ⟨hp, hh⟩ := hv
      subst hp
      subst hh
      simp [ownEnumerable, ho]
  | undefined => simp [isPlainObject] at hv
  | null => simp [isPlainObject] at hv
  | bool b => simp [isPlainObject] at hv
  | num n => simp [isPlainObject] at hv
  | str s => simp [isPlainObject] at hv
  | objectPrototype => simp [isPlainObject] at hv
  | builtin name => simp [isPlainObject] at hv

/-- A value that is a plain object or absent is absent or a plain object. -/
theorem isPlainOrAbsent_cases (h : Heap) (v : Val) (hv : isPlainOrAbsent h v = true) :
    v = .undefined ∨ isPlainObject h v = true := by
  cases v with
  | undefined => exact Or.inl rfl
  | ref a => exact Or.inr (by simpa [isPlainOrAbsent] using hv)
  | null => simp [isPlainOrAbsent, isPlainObject] at hv
  | bool b => simp [isPlainOrAbsent, isPlainObject] at hv
  | num n => simp [isPlainOrAbsent, isPlainObject] at hv
  | str s => simp [isPlainOrAbsent, isPlainObject] at hv
  | objectPrototype => simp [isPlainOrAbsent, isPlainObject] at hv
  | builtin name => simp [isPlainOrAbsent, isPlainObject] at hv

/-- Reading from a plain object is a lookup among the properties a spread of
it copies, then in `Object.prototype`. -/
theorem get_of_isPlainObject (intrinsics : Intrinsics) (h : Heap) (old : Val) (key : JSString)
    (hold : isPlainObject h old = true) :
    get intrinsics h old key = ((ownEnumerable h old).lookup key).getD (inherited key) := by
  obtain ⟨a, rfl, hcell⟩ := cell_of_isPlainObject h old hold
  exact get_plain intrinsics h a _ key hcell

/-- What a plain object inherits has no property that a spread copies. -/
theorem ownEnumerable_inherited (h : Heap) (key : JSString) :
    ownEnumerable h (inherited key) = [] := by
  unfold inherited
  split
  · rfl
  · split <;> rfl

/-- A spread of an old value copies the same properties in any heap that
extends the old one. -/
theorem ownEnumerable_of_prefix (h0 hc : Heap) (old : Val)
    (hpre : ∀ a, a < h0.length → hc[a]? = h0[a]?) (hold : isPlainOrAbsent h0 old = true) :
    ownEnumerable hc old = ownEnumerable h0 old := by
  rcases isPlainOrAbsent_cases h0 old hold with rfl | hp
  · rfl
  · obtain ⟨a, rfl, hcell⟩ := cell_of_isPlainObject h0 _ hp
    have ha : a < h0.length := (List.getElem?_eq_some.1 hcell).1
    simp [ownEnumerable, hpre a ha]

/-- The spread of what a fresh copy reads under a key copies the properties
of what the old value reads under it. -/
theorem ownEnumerable_child (intrinsics : Intrinsics) (h0 hc : Heap) (c : Nat) (old : Val)
    (key : JSString)
    (hpre : ∀ a, a < h0.length → hc[a]? = h0[a]?)
    (hcell : hc[c]? = some ⟨.objectPrototype, ownEnumerable h0 old, []⟩)
    (hold : isPlainOrAbsent h0 old = true)
    (hchild : isPlainOrAbsent h0 (get intrinsics h0 old key) = true) :
    ownEnumerable hc (get intrinsics hc (.ref c) key) =
      ownEnumerable h0 (get intrinsics h0 old key) := by
  rcases isPlainOrAbsent_cases h0 old hold with rfl | hp
  · rw [get_plain intrinsics hc c _ key hcell, get_undefined]
    have hnone : (ownEnumerable h0 .undefined).lookup key = none := rfl
    rw [hnone, Option.getD_none, ownEnumerable_inherited]
    rfl
  · rw [get_plain intrinsics hc c _ key hcell, ← get_of_isPlainObject intrinsics h0 old key hp]
    exact ownEnumerable_of_prefix h0 hc _ hpre hchild

/-- A value that is an object, and a plain object or absent, is a plain
object. -/
theorem isPlainObject_of_isObject (h : Heap) (v : Val) (hv : isPlainOrAbsent h v = true)
    (ho : isObject h v = true) : isPlainObject h v = true := by
  rcases isPlainOrAbsent_cases h v hv with rfl | hp
  · simp [isObject] at ho
  · exact hp

/-- The invariant of `updateNested`: started at a fresh copy `c` of the old
value `old`, the loop over `ks` followed by the final assignment of `last`
completes; it touches no object other than `c` and new ones, the value read
along the keys is `value`, and at every level where the old state has an
object the properties other than the key taken read as they did in the old
heap. -/
theorem loop_then_assign (intrinsics : Intrinsics) (ks : List JSString) (last : JSString)
    (value : Val) (h0 : Heap) :
    ∀ (hc : Heap) (c : Nat) (old : Val),
      (∀ a, a < h0.length → hc[a]? = h0[a]?) →
      h0.length ≤ c →
      hc[c]? = some ⟨.objectPrototype, ownEnumerable h0 old, []⟩ →
      isPlainOrAbsent h0 old = true →
      (∀ k ∈ ks ++ [last], k ≠ protoKey) →
      plainOrAbsentAlong intrinsics h0 old ks = true →
      ∃ h1 cur hf, updateNested.loop intrinsics hc (.ref c) ks = .ok (h1, cur) ∧
        setProp intrinsics h1 cur last value = .ok hf ∧
        (∀ a, a < hc.length → a ≠ c → hf[a]? = hc[a]?) ∧
        hc.length ≤ hf.length ∧
        getPath intrinsics hf (.ref c) (ks ++ [last]) = value ∧
        (∀ i k, i < (ks ++ [last]).length → (ks ++ [last])[i]? ≠ some k →
          isObject h0 (getPath intrinsics h0 old ((ks ++ [last]).take i)) = true →
          get intrinsics hf (getPath intrinsics hf (.ref c) ((ks ++ [last]).take i)) k =
            get intrinsics h0 (getPath intrinsics h0 old ((ks ++ [last]).take i)) k) := by
  induction ks with
  | nil =>
    intro hc c old hpre hlen hcell hold hkeys _
    have hlast : last ≠ protoKey := hkeys last (by simp)
    have hclt : c < hc.length := (List.getElem?_eq_some.1 hcell).1
    have hcell' : (hc.set c ⟨.objectPrototype,
        assignOwn (ownEnumerable h0 old) last value, []⟩)[c]? =
        some ⟨.objectPrototype, assignOwn (ownEnumerable h0 old) last value, []⟩ :=
      List.getElem?_set_self hclt
    refine ⟨hc, .ref c, _, rfl, setProp_plain intrinsics hc c _ last value hcell hlast,
      ?_, ?_, ?_, ?_⟩
    · intro a _ hac
      exact List.getElem?_set_ne (Ne.symm hac)
    · simp
    · simp only [List.nil_append, getPath]
      rw [get_plain intrinsics _ c _ last hcell', lookup_assignOwn_self]
      rfl
    · intro i k hi hik hobj
      have hi0 : i = 0 := by
        simp only [List.nil_append, List.length_singleton] at hi
        omega
      subst hi0
      have hkl : k ≠ last := by
        intro h
        apply hik
        simp [h]
      simp only [List.take_zero, getPath] at hobj ⊢
      rw [get_plain intrinsics _ c _ k hcell', lookup_assignOwn_of_ne _ _ _ _ hkl,
        get_of_isPlainObject intrinsics h0 old k (isPlainObject_of_isObject h0 old hold hobj)]
  | cons k1 ks ih =>
    intro hc c old hpre hlen hcell hold hkeys hinter
    have hk1 : k1 ≠ protoKey := hkeys k1 (by simp)
    have hclt : c < hc.length := (List.getElem?_eq_some.1 hcell).1
    simp only [plainOrAbsentAlong, Bool.and_eq_true] at hinter
    obtain ⟨hold1, hinter1⟩ := hinter
    -- the copy of the child holds the properties of the child of the old value
    have hown : ownEnumerable hc (get intrinsics hc (.ref c) k1) =
        ownEnumerable h0 (get intrinsics h0 old k1) :=
      ownEnumerable_child intrinsics h0 hc c old k1 hpre hcell hold hold1
    -- the heap after the allocation and after the assignment of the copy
    have hh1c : (hc ++ [spread hc (get intrinsics hc (.ref c) k1)])[c]? =
        some ⟨.objectPrototype, ownEnumerable h0 old, []⟩ := by
      rw [List.getElem?_append_left hclt, hcell]
    have hset := setProp_plain intrinsics (hc ++ [spread hc (get intrinsics hc (.ref c) k1)]) c _
      k1 (.ref hc.length) hh1c hk1
    have hc1ne : c ≠ hc.length := Nat.ne_of_lt hclt
    have hih := ih
      ((hc ++ [spread hc (get intrinsics hc (.ref c) k1)]).set c
        ⟨.objectPrototype, assignOwn (ownEnumerable h0 old) k1 (.ref hc.length), []⟩)
      hc.length (get intrinsics h0 old k1)
      (by
        intro a ha
        have hac : c ≠ a := by omega
        rw [List.getElem?_set_ne hac, List.getElem?_append_left (by omega), hpre a ha])
      (by omega)
      (by
        rw [List.getElem?_set_ne hc1ne, List.getElem?_concat_length]
        simp [spread, hown])
      hold1
      (fun k hk => hkeys k (by simp only [List.cons_append, List.mem_cons]; exact Or.inr hk))
      hinter1
    obtain ⟨h1, cur, hf, hloop, hfin, hframe, hlenf, hpath, hsib⟩ := hih
    have hlen2 : ((hc ++ [spread hc (get intrinsics hc (.ref c) k1)]).set c
        ⟨.objectPrototype, assignOwn (ownEnumerable h0 old) k1 (.ref hc.length), []⟩).length =
        hc.length + 1 := by simp
    -- the cell of the copy `c` in the final heap
    have hcf : hf[c]? = some ⟨.objectPrototype,
        assignOwn (ownEnumerable h0 old) k1 (.ref hc.length), []⟩ := by
      rw [hframe c (by rw [hlen2]; omega) hc1ne]
      exact List.getElem?_set_self (by simp; omega)
    have hback : get intrinsics hf (.ref c) k1 = .ref hc.length := by
      rw [get_plain intrinsics hf c _ k1 hcf, lookup_assignOwn_self]
      rfl
    have hback2 : get intrinsics ((hc ++ [spread hc (get intrinsics hc (.ref c) k1)]).set c
        ⟨.objectPrototype, assignOwn (ownEnumerable h0 old) k1 (.ref hc.length), []⟩)
        (.ref c) k1 = .ref hc.length := by
      rw [get_plain intrinsics _ c _ k1 (List.getElem?_set_self (by simp; omega)),
        lookup_assignOwn_self]
      rfl
    refine ⟨h1, cur, hf, ?_, hfin, ?_, ?_, ?_, ?_⟩
    · simp only [updateNested.loop, alloc, hset, hback2]
      exact hloop
    · intro a ha hac
      rw [hframe a (by rw [hlen2]; omega) (by omega), List.getElem?_set_ne (Ne.symm hac),
        List.getElem?_append_left ha]
    · rw [hlen2] at hlenf
      omega
    · simp only [List.cons_append, getPath, hback]
      exact hpath
    · intro i k hi hik hobj
      cases i with
      | zero =>
        have hkk : k ≠ k1 := by
          intro h
          apply hik
          simp [h]
        simp only [List.take_zero, getPath] at hobj ⊢
        rw [get_plain intrinsics hf c _ k hcf, lookup_assignOwn_of_ne _ _ _ _ hkk,
          get_of_isPlainObject intrinsics h0 old k
            (isPlainObject_of_isObject h0 old hold hobj)]
      | succ j =>
        simp only [List.cons_append, List.take_succ_cons, getPath, hback] at hobj ⊢
        simp only [List.cons_append, List.length_cons] at hi
        simp only [List.cons_append, List.getElem?_cons_succ] at hik
        exact hsib j k (by omega) hik hobj

/-- C8 (amended): for a state that is a plain object (prototype
`Object.prototype`, every own property an enumerable data property) and a
dotted path none of whose keys is `__proto__` and whose intermediate values
are plain objects or absent, `updateNested(path, value)` completes; the new
state is a new object whose value at the path is `value`; at every level of
the path where the previous state has an object, each property other than the
key taken there, own or inherited, reads as it did in the previous state; and
every object that existed before the call, the previous state and its nested
objects among them, is left unmodified. -/
theorem updateNested_deep_immutable (intrinsics : Intrinsics) (h : Heap) (s : Nat)
    (path : JSString) (value : Val)
    (hstate : isPlainObject h (.ref s) = true)
    (hkeys : ∀ k ∈ split path 46, k ≠ protoKey)
    (hinter : plainOrAbsentAlong intrinsics h (.ref s) (split path 46).dropLast = true) :
    ∃ h', updateNested intrinsics h (.ref s) path value = .ok (h', .ref h.length) ∧
      getPath intrinsics h' (.ref h.length) (split path 46) = value ∧
      (∀ i k, i < (split path 46).length → (split path 46)[i]? ≠ some k →
        isObject h (getPath intrinsics h (.ref s) ((split path 46).take i)) = true →
        get intrinsics h' (getPath intrinsics h' (.ref h.length) ((split path 46).take i)) k =
          get intrinsics h (getPath intrinsics h (.ref s) ((split path 46).take i)) k) ∧
      (∀ a, a < h.length → h'[a]? = h[a]?) := by
  have hne := split_ne_nil path 46
  have hkeysEq : (split path 46).dropLast ++ [(split path 46).getLast hne] = split path 46 :=
    List.dropLast_append_getLast hne
  have hlast : (split path 46).getLast? = some ((split path 46).getLast hne) :=
    List.getLast?_eq_getLast _ hne
  generalize (split path 46).getLast hne = last at hkeysEq hlast
  generalize hks : (split path 46).dropLast = ks at hkeysEq hinter
  have hold : isPlainOrAbsent h (.ref s) = true := by simpa [isPlainOrAbsent] using hstate
  obtain ⟨h1, cur, hf, hloop, hfin, hframe, _, hpath, hsib⟩ :=
    loop_then_assign intrinsics ks last value h (h ++ [spread h (.ref s)]) h.length (.ref s)
      (fun a ha => List.getElem?_append_left ha) (Nat.le_refl _)
      (by rw [List.getElem?_concat_length]; rfl) hold
      (by rw [hkeysEq]; exact hkeys) hinter
  refine ⟨hf, ?_, ?_, ?_, ?_⟩
  · simp only [updateNested, alloc, hks, hloop, hlast, Option.getD_some, hfin]
  · rw [← hkeysEq]
    exact hpath
  · rw [← hkeysEq]
    exact hsib
  · intro a ha
    rw [hframe a (by simp; omega) (by omega), List.getElem?_append_left ha]

/-- C8 (amended) at the sample call: the call
`store.updateNested('user.preferences.theme', 'dark')` on the heap of the
sample store meets the hypotheses. -/
theorem updateNested_deep_immutable_store :
    ∃ h', updateNested noIntrinsics storeHeap (.ref 2) (lit "user.preferences.theme")
        (.str (lit "dark")) = .ok (h', .ref storeHeap.length) ∧
      getPath noIntrinsics h' (.ref storeHeap.length)
        (split (lit "user.preferences.theme") 46) = .str (lit "dark") ∧
      (∀ i k, i < (split (lit "user.preferences.theme") 46).length →
        (split (lit "user.preferences.theme") 46)[i]? ≠ some k →
        isObject storeHeap (getPath noIntrinsics storeHeap (.ref 2)
          ((split (lit "user.preferences.theme") 46).take i)) = true →
        get noIntrinsics h' (getPath noIntrinsics h' (.ref storeHeap.length)
            ((split (lit "user.preferences.theme") 46).take i)) k =
          get noIntrinsics storeHeap (getPath noIntrinsics storeHeap (.ref 2)
            ((split (lit "user.preferences.theme") 46).take i)) k) ∧
      (∀ a, a < storeHeap.length → h'[a]? = storeHeap[a]?) :=
  updateNested_deep_immutable noIntrinsics storeHeap 2 (lit "user.preferences.theme")
    (.str (lit "dark")) (by decide) (by decide) (by decide)

/-- Counterexamples to C8 as stated, whatever the built-in functions hold; in
each the intermediate values of the path are objects.
(1) On the sample store, `updateNested('__proto__', 5)` completes, but the new
state's value at the path is `Object.prototype`, not 5: the assignment runs
the prototype setter, which ignores a value that is not an object.
(2) With `user = Object.create({ role: "admin" })` under the state,
`updateNested('user.name', 'Jane')` completes, and `user.role`, not on the
path, read "admin" before and reads `undefined` after: the spread copies own
properties only.  (3) The same at the root, for the state `user` itself and
the path `name`.  (4) With an `item` that has a property `secret` that is not
enumerable, `updateNested('item.a', 9)` completes, and `item.secret` read 2
before and reads `undefined` after.  (5) On the state `{}`,
`updateNested('constructor.x', 1)` completes; the intermediate value is the
inherited function `Object`, and `constructor.keys` read what `Object.keys` is
before and reads `undefined` after. -/
theorem updateNested_not_deep_immutable :
    (∀ intrinsics : Intrinsics,
      objectsOrAbsent intrinsics storeHeap (.ref 2) (split (lit "__proto__") 46).dropLast = true ∧
      ∃ h', updateNested intrinsics storeHeap (.ref 2) (lit "__proto__") (.num (.fin 5)) =
          .ok (h', .ref 3) ∧
        getPath intrinsics h' (.ref 3) (split (lit "__proto__") 46) = .objectPrototype ∧
        getPath intrinsics h' (.ref 3) (split (lit "__proto__") 46) ≠ .num (.fin 5)) ∧
    (∀ intrinsics : Intrinsics,
      objectsOrAbsent intrinsics inheritingHeap (.ref 2) (split (lit "user.name") 46).dropLast =
        true ∧
      ∃ h', updateNested intrinsics inheritingHeap (.ref 2) (lit "user.name")
          (.str (lit "Jane")) = .ok (h', .ref 3) ∧
        get intrinsics inheritingHeap (getPath intrinsics inheritingHeap (.ref 2) [lit "user"])
          (lit "role") = .str (lit "admin") ∧
        get intrinsics h' (getPath intrinsics h' (.ref 3) [lit "user"]) (lit "role") =
          .undefined) ∧
    (∀ intrinsics : Intrinsics,
      ∃ h', updateNested intrinsics inheritingHeap (.ref 1) (lit "name")
          (.str (lit "Jane")) = .ok (h', .ref 3) ∧
        get intrinsics inheritingHeap (.ref 1) (lit "role") = .str (lit "admin") ∧
        get intrinsics h' (.ref 3) (lit "role") = .undefined) ∧
    (∀ intrinsics : Intrinsics,
      objectsOrAbsent intrinsics hiddenHeap (.ref 1) (split (lit "item.a") 46).dropLast = true ∧
      ∃ h', updateNested intrinsics hiddenHeap (.ref 1) (lit "item.a") (.num (.fin 9)) =
          .ok (h', .ref 2) ∧
        get intrinsics hiddenHeap (getPath intrinsics hiddenHeap (.ref 1) [lit "item"])
          (lit "secret") = .num (.fin 2) ∧
        get intrinsics h' (getPath intrinsics h' (.ref 2) [lit "item"]) (lit "secret") =
          .undefined) ∧
    (∀ intrinsics : Intrinsics,
      objectsOrAbsent intrinsics emptyStateHeap (.ref 0)
        (split (lit "constructor.x") 46).dropLast = true ∧
      getPath intrinsics emptyStateHeap (.ref 0) [lit "constructor"] =
        .builtin (lit "constructor") ∧
      ∃ h', updateNested intrinsics emptyStateHeap (.ref 0) (lit "constructor.x")
          (.num (.fin 1)) = .ok (h', .ref 1) ∧
        get intrinsics emptyStateHeap
          (getPath intrinsics emptyStateHeap (.ref 0) [lit "constructor"]) (lit "keys") =
          intrinsics (lit "constructor") (lit "keys") ∧
        get intrinsics h' (getPath intrinsics h' (.ref 1) [lit "constructor"]) (lit "keys") =
          .undefined) := by
  refine ⟨fun t => ⟨rfl, _, rfl, rfl, ?_⟩, fun t => ⟨rfl, _, rfl, rfl, rfl⟩,
    fun t => ⟨_, rfl, rfl, rfl⟩, fun t => ⟨rfl, _, rfl, rfl, rfl⟩,
    fun t => ⟨rfl, rfl, _, rfl, rfl, rfl⟩⟩
  intro hfive
  have hget : getPath t
      ((storeHeap ++ [spread storeHeap (.ref 2)])) (.ref 3) (split (lit "__proto__") 46) =
      .objectPrototype := rfl
  rw [hget] at hfive
  exact Val.noConfusion hfive

/-- The path `constructor.x` on the state `{}` is outside the amended claim:
its intermediate value is a built-in function, not a plain object. -/
theorem constructor_path_not_plain (intrinsics : Intrinsics) :
    plainOrAbsentAlong intrinsics emptyStateHeap (.ref 0)
      (split (lit "constructor.x") 46).dropLast = false := by
  rfl

end ES2018

namespace ES2016

/-- C11: for every `ip` and `path`,
`canAccess(ip, path) = isIPAllowed(ip) && !isPathBlocked(path)`, and on the
constructed instance it is true exactly when `ip` is one of '192.168.1.1',
'192.168.1.100', '10.0.0.5' and `path` is none of '/admin', '/config',
'/internal'; the three sample calls give true, false, false. -/
theorem canAccess_iff (this : AccessControl) (ip path : JSValue) :
    this.canAccess ip path = (this.isIPAllowed ip && !this.isPathBlocked path) ∧
      (access.canAccess ip path = true ↔
        (ip = .str (lit "192.168.1.1") ∨ ip = .str (lit "192.168.1.100") ∨
            ip = .str (lit "10.0.0.5")) ∧
          ¬(path = .str (lit "/admin") ∨ path = .str (lit "/config") ∨
            path = .str (lit "/internal"))) ∧
      access.canAccess (.str (lit "192.168.1.1")) (.str (lit "/home")) = true ∧
      access.canAccess (.str (lit "192.168.1.1")) (.str (lit "/admin")) = false ∧
      access.canAccess (.str (lit "203.0.113.1")) (.str (lit "/home")) = false := by
  refine ⟨rfl, ?_, by decide, by decide, by decide⟩
  simp [access, AccessControl.canAccess, AccessControl.isIPAllowed, AccessControl.isPathBlocked,
    AccessControl.new, includes]

end ES2016

namespace ES2016

theorem two_pow_lt_of_le (n : Nat) (h : n ≤ 1014) : (1000 : ℚ) * 2 ^ n < 2 ^ 1024 := by
  have h1 : (2 : ℚ) ^ n ≤ 2 ^ 1014 := pow_le_pow_right₀ (by norm_num) h
  have h2 : (1000 : ℚ) * 2 ^ 1014 < 2 ^ 1024 := by
    have : (2 : ℚ) ^ 1024 = 1024 * 2 ^ 1014 := by
      rw [show (1024 : ℚ) = 2 ^ 10 by norm_num, ← pow_add]
    rw [this]
    have hpos : (0 : ℚ) < 2 ^ 1014 := by positivity
    nlinarith
  nlinarith

theorem getRetryDelay_of_le (this : AccessControl) (n : Nat) (h : n ≤ 1014) :
    this.getRetryDelay n = .fin (1000 * 2 ^ n) := by
  have hlt := two_pow_lt_of_le n h
  have hpos : (0 : ℚ) < 2 ^ n := by positivity
  have hp : (2 : ℚ) ^ n < 2 ^ 1024 := by nlinarith
  have hpow : JSNum.pow (.fin 2) n = .fin (2 ^ n) := by
    cases n with
    | zero => simp [JSNum.pow]
    | succ m =>
      simp only [JSNum.pow, JSNum.ofExact]
      rw [if_neg (not_le.2 hp), if_neg]
      have : (0 : ℚ) < 2 ^ 1024 := by positivity
      linarith
  simp only [AccessControl.getRetryDelay, hpow, JSNum.mul, JSNum.ofExact]
  rw [if_neg (not_le.2 hlt), if_neg]
  have : (0 : ℚ) < 2 ^ 1024 := by positivity
  nlinarith

theorem two_pow_ge_of_ge (n : Nat) (h : 1015 ≤ n) : (2 : ℚ) ^ 1024 ≤ 1000 * 2 ^ n := by
  have h1 : (2 : ℚ) ^ 1015 ≤ 2 ^ n := pow_le_pow_right₀ (by norm_num) h
  have h2 : (2 : ℚ) ^ 1024 = 512 * 2 ^ 1015 := by
    rw [show (512 : ℚ) = 2 ^ 9 by norm_num, ← pow_add]
  have hpos : (0 : ℚ) < 2 ^ 1015 := by positivity
  rw [h2]
  nlinarith

/-- From attempt 1015 on the product overflows: the delay is `Infinity`. -/
theorem getRetryDelay_of_ge (this : AccessControl) (n : Nat) (h : 1015 ≤ n) :
    this.getRetryDelay n = .posInf := by
  obtain ⟨m, rfl⟩ : ∃ m, n = m + 1 := ⟨n - 1, by omega⟩
  by_cases hp : (2 : ℚ) ^ 1024 ≤ 2 ^ (m + 1)
  · simp [AccessControl.getRetryDelay, JSNum.pow, JSNum.ofExact, hp, JSNum.mul]
  · have hge := two_pow_ge_of_ge (m + 1) h
    have hpos : (0 : ℚ) < 2 ^ (m + 1) := by positivity
    have hneg : ¬ (2 : ℚ) ^ (m + 1) ≤ -(2 ^ 1024) := by
      have : (0 : ℚ) < 2 ^ 1024 := by positivity
      intro hle
      linarith
    simp only [AccessControl.getRetryDelay, JSNum.pow, JSNum.ofExact, hp, hneg, if_false,
      JSNum.mul, hge, if_true]

/-- Each attempt doubles the delay of the attempt before, `Infinity` included. -/
theorem getRetryDelay_succ (this : AccessControl) (n : Nat) :
    this.getRetryDelay (n + 1) = JSNum.mul (.fin 2) (this.getRetryDelay n) := by
  by_cases h : n ≤ 1013
  · rw [getRetryDelay_of_le this (n + 1) (by omega), getRetryDelay_of_le this n (by omega)]
    have hlt := two_pow_lt_of_le (n + 1) (by omega)
    have hpos : (0 : ℚ) < 2 ^ n := by positivity
    have heq : (2 : ℚ) * (1000 * 2 ^ n) = 1000 * 2 ^ (n + 1) := by ring
    simp only [JSNum.mul, JSNum.ofExact, heq]
    rw [if_neg (not_le.2 hlt), if_neg]
    have : (0 : ℚ) < 2 ^ 1024 := by positivity
    nlinarith
  · by_cases h' : n = 1014
    · subst h'
      rw [getRetryDelay_of_ge this 1015 (by omega), getRetryDelay_of_le this 1014 (by omega)]
      have hge := two_pow_ge_of_ge 1015 (by omega)
      have heq : (2 : ℚ) * (1000 * 2 ^ 1014) = 1000 * 2 ^ 1015 := by ring
      simp only [JSNum.mul, JSNum.ofExact, heq, hge, if_true]
    · rw [getRetryDelay_of_ge this (n + 1) (by omega), getRetryDelay_of_ge this n (by omega)]
      simp [JSNum.mul]

/-- C12 (amended): for every non-negative integer `n` up to 1014,
`getRetryDelay(n) = 1000 * 2^n`; `getRetryDelay(n + 1) = 2 * getRetryDelay(n)`;
and attempts 0 through 4 give 1000, 2000, 4000, 8000 and 16000. -/
theorem getRetryDelay_closed_form (this : AccessControl) (n : Nat) (h : n ≤ 1014) :
    this.getRetryDelay n = .fin (1000 * 2 ^ n) ∧
      this.getRetryDelay (n + 1) = JSNum.mul (.fin 2) (this.getRetryDelay n) ∧
      [0, 1, 2, 3, 4].map access.getRetryDelay =
        [.fin 1000, .fin 2000, .fin 4000, .fin 8000, .fin 16000] := by
  refine ⟨getRetryDelay_of_le this n h, getRetryDelay_succ this n, ?_⟩
  simp only [List.map, getRetryDelay_of_le access _ (show 0 ≤ 1014 by omega),
    getRetryDelay_of_le access _ (show 1 ≤ 1014 by omega),
    getRetryDelay_of_le access _ (show 2 ≤ 1014 by omega),
    getRetryDelay_of_le access _ (show 3 ≤ 1014 by omega),
    getRetryDelay_of_le access _ (show 4 ≤ 1014 by omega)]
  norm_num

/-- C12 (amended) at attempt 4, the last one of the sample loop. -/
theorem getRetryDelay_closed_form_four :
    (4 : Nat) ≤ 1014 ∧
      access.getRetryDelay 4 = .fin (1000 * 2 ^ 4) ∧
      access.getRetryDelay (4 + 1) = JSNum.mul (.fin 2) (access.getRetryDelay 4) ∧
      [0, 1, 2, 3, 4].map access.getRetryDelay =
        [.fin 1000, .fin 2000, .fin 4000, .fin 8000, .fin 16000] :=
  ⟨by decide, getRetryDelay_closed_form access 4 (by decide)⟩

/-- Counterexample to C12 as stated: at attempt 1015 the power `2 ** 1015` is
still a finite double, but its product with 1000 exceeds the largest double,
so `getRetryDelay(1015)` is `Infinity` and not `1000 * 2^1015`. -/
theorem getRetryDelay_overflow_at_1015 :
    access.getRetryDelay 1015 = .posInf ∧
      access.getRetryDelay 1015 ≠ .fin (1000 * 2 ^ 1015) := by
  have h := getRetryDelay_of_ge access 1015 (by decide)
  exact ⟨h, by rw [h]; simp⟩

end ES2016

namespace ES5

theorem getActiveUserNamesOld_loop_eq (users : List JSObject) :
    ∀ (fuel i : Nat) (names : List JSValue), i + fuel = users.length →
      getActiveUserNamesOld.loop users fuel i names = .ok (names ++ activeNames (users.drop i)) := by
  intro fuel
  induction fuel with
  | zero =>
    intro i names h
    have hi : users.length ≤ i := by omega
    simp [getActiveUserNamesOld.loop, List.drop_eq_nil_of_le hi, activeNames]
  | succ fuel ih =>
    intro i names h
    have hi : i < users.length := by omega
    rw [List.drop_eq_getElem_cons hi]
    simp only [getActiveUserNamesOld.loop, List.getElem?_eq_getElem hi, activeNames]
    split_ifs with ha
    · rw [ih (i + 1) _ (by omega)]
      simp
    · rw [ih (i + 1) _ (by omega)]

theorem filter_map_eq_activeNames (users : List JSObject) :
    ((users.filter fun user => toBoolean (getProp user (lit "active"))).map
      fun user => getProp user (lit "name")) = activeNames users := by
  induction users with
  | nil => rfl
  | cons user rest ih =>
    by_cases ha : toBoolean (getProp user (lit "active")) = true
    · simp [List.filter_cons, activeNames, ha, ih]
    · simp [List.filter_cons, activeNames, ha, ih]

/-- C13: for every array of user objects, `getActiveUserNamesOld` and
`getActiveUserNames` both return, without raising, the names of the users
whose active flag is truthy, in their original order; for the sample data
that is `['John', 'Bob', 'Alice']`. -/
theorem getActiveUserNames_old_eq_modern (users : List JSObject) :
    getActiveUserNamesOld users = getActiveUserNames users ∧
      getActiveUserNames users = .ok (activeNames users) ∧
      getActiveUserNames ES5.users =
        .ok [.str (lit "John"), .str (lit "Bob"), .str (lit "Alice")] := by
  have hold : getActiveUserNamesOld users = .ok (activeNames users) := by
    simp [getActiveUserNamesOld, getActiveUserNamesOld_loop_eq users users.length 0 [] (by simp)]
  have hnew : getActiveUserNames users = .ok (activeNames users) := by
    simp only [getActiveUserNames, filter_map_eq_activeNames]
  exact ⟨by rw [hold, hnew], hnew, by decide⟩

end ES5

namespace Harness

theorem sameSequence_iff (observed expected : List JSString) :
    sameSequence observed expected = true ↔ observed = expected := by
  induction observed generalizing expected with
  | nil => cases expected <;> simp [sameSequence]
  | cons line observed ih =>
    cases expected with
    | nil => simp [sameSequence]
    | cons expectedLine expected => simp [sameSequence, ih]

/-- C14: `compare(observed, expected)` passes for every observed sequence when
`expected` is empty, passes when `observed` equals `expected`, and is Failed,
never Errored, on every other input; in particular `compare([], e)` is Failed
for every non-empty `e` and `compare(x, x)` passes for every `x`. -/
theorem compare_spec :
    (∀ observed, Comparator.compare observed [] = .Passed) ∧
      (∀ x, Comparator.compare x x = .Passed) ∧
      (∀ observed expected,
        Comparator.compare observed expected = .Passed ↔ expected = [] ∨ observed = expected) ∧
      (∀ observed expected,
        Comparator.compare observed expected = .Failed ↔ expected ≠ [] ∧ observed ≠ expected) ∧
      (∀ observed expected, Comparator.compare observed expected ≠ .Errored) ∧
      (∀ expected, expected ≠ [] → Comparator.compare [] expected = .Failed) := by
  have hcases : ∀ observed expected : List JSString,
      Comparator.compare observed expected =
        if expected = [] ∨ observed = expected then .Passed else .Failed := by
    intro observed expected
    unfold Comparator.compare
    by_cases he : expected = []
    · simp [he]
    · have hne : expected.isEmpty = false := by simpa using he
      by_cases hs : observed = expected
      · subst hs
        simp [hne, (sameSequence_iff observed observed).2 rfl]
      · have hs' : sameSequence observed expected = false := by
          simpa using fun h => hs ((sameSequence_iff observed expected).1 h)
        simp [hne, hs', he, hs]
  refine ⟨?_, ?_, ?_, ?_, ?_, ?_⟩
  · intro observed
    simp [hcases]
  · intro x
    simp [hcases]
  · intro observed expected
    rw [hcases]
    split_ifs with h <;> simp [h]
  · intro observed expected
    rw [hcases]
    split_ifs with h
    · simp only [reduceCtorEq, false_iff, not_and, not_not]
      intro he
      rcases h with h | h
      · exact absurd h he
      · exact h
    · simp only [true_iff]
      exact ⟨fun he => h (Or.inl he), fun hs => h (Or.inr hs)⟩
  · intro observed expected
    rw [hcases]
    split_ifs <;> simp
  · intro expected he
    rw [hcases]
    have : ¬([] = expected) := fun h => he h.symm
    simp [he, this]

theorem present_iff (registry : Registry) (edition topic : JSString) :
    registry.present edition topic = true ↔
      ∃ e ∈ registry.all, e.edition = edition ∧ e.topic = topic := by
  simp [Registry.present, Registry.all, List.any_eq_true]

/-- C15: `register(example)` fails with DuplicateTopicError exactly when the
registry already holds an example with the same (edition, topic) pair, and
then leaves the registry, its size and its contents, unchanged; otherwise it
completes and appends the example, so that `all()` lists the examples in
registration order. -/
theorem register_spec (registry : Registry) (ex : Example) :
    ((registry.register ex).1 = .error .DuplicateTopicError ↔
        ∃ e ∈ registry.all, e.edition = ex.edition ∧ e.topic = ex.topic) ∧
      ((∃ e ∈ registry.all, e.edition = ex.edition ∧ e.topic = ex.topic) →
        (registry.register ex).2 = registry ∧
          (registry.register ex).2.size = registry.size ∧
          (registry.register ex).2.all = registry.all) ∧
      ((¬∃ e ∈ registry.all, e.edition = ex.edition ∧ e.topic = ex.topic) →
        (registry.register ex).1 = .ok () ∧
          (registry.register ex).2.all = registry.all ++ [ex] ∧
          (registry.register ex).2.size = registry.size + 1) := by
  by_cases h : registry.present ex.edition ex.topic = true
  · have hreg : registry.register ex = (.error .DuplicateTopicError, registry) := by
      simp [Registry.register, h]
    have hex := (present_iff registry ex.edition ex.topic).1 h
    refine ⟨?_, ?_, ?_⟩
    · simp only [hreg, true_iff]
      exact hex
    · intro _
      simp [hreg]
    · intro hn
      exact absurd hex hn
  · have hf : registry.present ex.edition ex.topic = false := by simpa using h
    have hreg : registry.register ex = (.ok (), { examples := registry.examples ++ [ex] }) := by
      simp [Registry.register, hf]
    have hnex : ¬∃ e ∈ registry.all, e.edition = ex.edition ∧ e.topic = ex.topic :=
      fun hex => h ((present_iff registry ex.edition ex.topic).2 hex)
    refine ⟨?_, ?_, ?_⟩
    · simp only [hreg, reduceCtorEq, false_iff]
      exact hnex
    · intro hex
      exact absurd hex hnex
    · intro _
      simp [hreg, Registry.all, Registry.size]

/-- Registering one after the other examples whose (edition, topic) pairs are
new and pairwise distinct completes, and `all()` then lists the examples
already held followed by the new ones in registration order. -/
theorem registerAll_of_distinct (examples : List Example) :
    ∀ registry : Registry,
      (∀ ex ∈ examples, registry.present ex.edition ex.topic = false) →
      examples.Pairwise (fun a b => ¬(a.edition = b.edition ∧ a.topic = b.topic)) →
      (registry.registerAll examples).1 = .ok () ∧
        (registry.registerAll examples).2.all = registry.all ++ examples := by
  induction examples with
  | nil =>
    intro registry _ _
    simp [Registry.registerAll]
  | cons ex rest ih =>
    intro registry hnew hpair
    have hf : registry.present ex.edition ex.topic = false := hnew ex (by simp)
    have hreg : registry.register ex = (.ok (), { examples := registry.examples ++ [ex] }) := by
      simp [Registry.register, hf]
    rw [List.pairwise_cons] at hpair
    have hnew1 : ∀ e ∈ rest,
        Registry.present { examples := registry.examples ++ [ex] } e.edition e.topic = false := by
      intro e he
      have h1 := hnew e (List.mem_cons_of_mem _ he)
      have h2 := hpair.1 e he
      simp only [Registry.present, List.any_append, List.any_cons, List.any_nil, Bool.or_false,
        Bool.or_eq_false_iff, Bool.and_eq_false_iff, beq_eq_false_iff_ne] at h1 ⊢
      refine ⟨h1, ?_⟩
      by_cases hed : ex.edition = e.edition
      · exact Or.inr fun htp => h2 ⟨hed, htp⟩
      · exact Or.inl hed
    obtain ⟨h1, h2⟩ := ih { examples := registry.examples ++ [ex] } hnew1 hpair.2
    simp only [Registry.registerAll, hreg]
    refine ⟨h1, ?_⟩
    rw [h2]
    simp [Registry.all]

/-- The scenario of section 8: of two examples both tagged
`("ES2020", "optional-chaining")` the first is registered, the second fails with
DuplicateTopicError, and the Registry retains only the first. -/
theorem register_twice_scenario (first second : Example)
    (h1 : first.edition = lit "ES2020" ∧ first.topic = lit "optional-chaining")
    (h2 : second.edition = lit "ES2020" ∧ second.topic = lit "optional-chaining") :
    (Registry.empty.register first).1 = .ok () ∧
      ((Registry.empty.register first).2.register second).1 = .error .DuplicateTopicError ∧
      ((Registry.empty.register first).2.register second).2.all = [first] := by
  have hreg : Registry.empty.register first = (.ok (), { examples := [first] }) := by
    simp [Registry.register, Registry.empty, Registry.present]
  have hreg2 : Registry.register { examples := [first] } second =
      (.error .DuplicateTopicError, { examples := [first] }) := by
    simp [Registry.register, Registry.present, h1.1, h1.2, h2.1, h2.2]
  rw [hreg]
  simp only [hreg2, Registry.all, and_self]

end Harness

namespace ES2020

theorem lookup_config_hoisted (host : Env) :
    (hoisted codeExamples ++ host).lookup (lit "config") = host.lookup (lit "config") := by
  have h1 : (lit "config" == lit "getUserCity") = false := by decide
  have h2 : (lit "config" == lit "processFormData") = false := by decide
  have h3 : (lit "config" == lit "loadAllData") = false := by decide
  have h4 : (lit "config" == lit "loadFeature") = false := by decide
  simp [codeExamples, hoisted, List.lookup, h1, h2, h3, h4]

/-- C16: run from top to bottom with only the bindings it defines, the ES2020
file raises `ReferenceError: config is not defined` at the `settings`
initializer, before anything is logged; and so it does in every host that
provides no global `config`, because the file declares none. -/
theorem codeExamples_run_raises :
    (runScript [] codeExamples).2 = .error (.referenceError (lit "config is not defined")) ∧
      (runScript [] codeExamples).1.log = [] ∧
      (hoisted codeExamples).lookup (lit "config") = none ∧
      (∀ host : Env, host.lookup (lit "config") = none →
        (runScript host codeExamples).2 =
          .error (.referenceError (lit "config is not defined"))) := by
  refine ⟨rfl, rfl, rfl, ?_⟩
  intro host hhost
  have hl := lookup_config_hoisted host
  rw [hhost] at hl
  have hrun : ∀ env : Env, env.lookup (lit "config") = none →
      (execStmts { env := env, log := [] } codeExamples).2 =
        .error (.referenceError (lit "config is not defined")) := by
    intro env henv
    have hmsg : lit "config" ++ lit " is not defined" = lit "config is not defined" := by
      decide
    simp [codeExamples, execStmts, execStmt, evalFields, configOr, eval, henv, hmsg]
  exact hrun _ hl

/-- In a host that does provide a global `config`, here one without a theme,
the file runs to its end: `settings` takes the volume of `config`, the default
theme, and `larger` is logged. -/
theorem codeExamples_run_with_config :
    (runScript [(lit "config", .object [(lit "audio", .object [(lit "volume", .num (.fin 80))])])]
        codeExamples).2 = .ok () ∧
      (runScript [(lit "config", .object [(lit "audio", .object [(lit "volume", .num (.fin 80))])])]
        codeExamples).1.env.lookup (lit "settings") =
        some (.object [(lit "volume", .num (.fin 80)), (lit "theme", .str (lit "light"))]) ∧
      (runScript [(lit "config", .object [(lit "audio", .object [(lit "volume", .num (.fin 80))])])]
        codeExamples).1.log = [.bigint 9007199254741991] := by
  refine ⟨rfl, rfl, rfl⟩

end ES2020

namespace ES5

/-- C17: the file is strict mode code, so after `product.price` is defined
non-writable with value 99.99 the statement `product.price = 49.99` raises a
TypeError: only the first `console.log` has run (99.99) and the next statement
is not reached.  Without the directive the assignment would do nothing and the
second `console.log` would print 99.99 again. -/
theorem productDemo_strict_raises :
    strictMode = true ∧
      productDemo strictMode =
        ([.num (.fin (9999 / 100))],
          .error (.typeError (lit "Cannot assign to read only property"))) ∧
      productDemo false =
        ([.num (.fin (9999 / 100)), .num (.fin (9999 / 100))],
          .ok [(lit "price", priceDescriptor)]) := by
  refine ⟨by decide, ?_, ?_⟩ <;> rfl

end ES5
